import Mathlib

/-!
# TimeStepTetModel (PositionBasedDynamics, Demos/BarDemo)

A shallow embedding of `Demos/BarDemo/TimeStepTetModel.cpp` and the properties of
its time step.

Conventions of the embedding

* `float` is idealised as `ℚ` (exact arithmetic); `-9.81f` is `-981/100` and the
  literal `0.2` is `1/5`. Where a property depends on rounding, the same code is also
  given with every float operation rounded (`stepR` and the other definitions ending
  in `R`, over an arbitrary rounding `Arith.rnd`); with no rounding it is the exact
  `step` (`stepR_exact`), with `roundF32` it is float32 on finite values.
* `Eigen::Vector3f` is `Vec3`, `Eigen::Matrix3f` is `Mat3`.
* A `std::vector` that is indexed with computed particle indices is a total map
  `Nat → α` (a memory), so a read or write at any index is defined; a vector that
  is only swept (`edges`, `tets`, `tetConstraints`) is a `List`.
* `for (i = 0; i < n; i++)` is `forLoop`, `while (iter < maxIter)` is a total
  recursive function.
* The constraint solvers of `PositionBasedDynamics` and `Eigen`'s `norm()` are
  external: they are the fields of `Env`, arbitrary functions of their arguments.
* Every solver invocation is recorded in a ghost log of `Call`s.
-/

namespace PBD

/-! ## Vectors -/

/-- Three rational components, for `Eigen::Vector3f`. -/
structure Vec3 where
  x : ℚ
  y : ℚ
  z : ℚ
deriving DecidableEq, Repr

namespace Vec3

/-- Zero vector. -/
def zero : Vec3 := ⟨0, 0, 0⟩

instance : Inhabited Vec3 := ⟨zero⟩

/-- Componentwise sum, `a + b`. -/
def add (a b : Vec3) : Vec3 := ⟨a.x + b.x, a.y + b.y, a.z + b.z⟩

/-- Componentwise difference, `a - b`. -/
def sub (a b : Vec3) : Vec3 := ⟨a.x - b.x, a.y - b.y, a.z - b.z⟩

/-- Vector times scalar, as in `accel * h`. -/
def muls (a : Vec3) (k : ℚ) : Vec3 := ⟨a.x * k, a.y * k, a.z * k⟩

/-- Scalar times vector, as in `1.0f / h * (...)`. -/
def smul (k : ℚ) (a : Vec3) : Vec3 := ⟨k * a.x, k * a.y, k * a.z⟩

/-- Vector divided by a scalar, componentwise (used in statements only). -/
def divs (a : Vec3) (k : ℚ) : Vec3 := ⟨a.x / k, a.y / k, a.z / k⟩

/-- Inner product, `a.dot(b)`. -/
def dot (a b : Vec3) : ℚ := a.x * b.x + a.y * b.y + a.z * b.z

/-- Cross product, `a.cross(b)`. -/
def cross (a b : Vec3) : Vec3 :=
  ⟨a.y * b.z - a.z * b.y, a.z * b.x - a.x * b.z, a.x * b.y - a.y * b.x⟩

instance : Add Vec3 := ⟨add⟩
instance : Sub Vec3 := ⟨sub⟩

end Vec3

/-- Three columns, for `Eigen::Matrix3f`; the time step only passes it on. -/
structure Mat3 where
  c0 : Vec3
  c1 : Vec3
  c2 : Vec3
deriving DecidableEq, Repr

/-! ## Data model -/

/-- Modelled from the spec: the particle state store `ParticleData` (its header is
not part of the sources): parallel per-particle arrays and a count. -/
structure ParticleData where
  size : Nat
  mass : Nat → ℚ
  invMass : Nat → ℚ
  x0 : Nat → Vec3
  x : Nat → Vec3
  v : Nat → Vec3
  a : Nat → Vec3
  lastX : Nat → Vec3

/-- Modelled from the spec: an edge of the mesh, a pair of particle indices
(`Edge::m_vert[2]`). -/
structure Edge where
  v0 : Nat
  v1 : Nat
deriving DecidableEq, Repr

/-- Modelled from the spec: the per-tetrahedron constraint record
`TetModel::TetConstraint`. -/
structure TetConstraint where
  tetVolume : ℚ
  invRestMat_FEM : Mat3
  invRestMat_SBD : Mat3
deriving DecidableEq, Repr

instance : Inhabited Edge := ⟨⟨0, 0⟩⟩
instance : Inhabited Mat3 := ⟨⟨default, default, default⟩⟩
instance : Inhabited TetConstraint := ⟨⟨0, default, default⟩⟩

/-- Modelled from the spec: the model `TetModel` with its mesh: the particle
store, the edge list, the flat tetrahedron index buffer (4 indices per
tetrahedron), the constraint records and the configuration values. -/
structure TetModel where
  pd : ParticleData
  edges : List Edge
  tets : List Nat
  tetConstraints : List TetConstraint
  stiffness : ℚ
  poissonRatio : ℚ
  normalizeStretch : Bool
  normalizeShear : Bool

/-- Number of edges, `numEdges()`. -/
def TetModel.numEdges (m : TetModel) : Nat := m.edges.length

/-- Number of tetrahedra, `numTets()`: a quarter of the index buffer. -/
def TetModel.numTets (m : TetModel) : Nat := m.tets.length / 4

/-- Modelled from the spec: the clock `TimeManager`: absolute time and step size. -/
structure TimeManager where
  time : ℚ
  h : ℚ
deriving DecidableEq, Repr

/-- The time stepper object: it holds the method selector `m_simulationMethod`. -/
structure TimeStepTetModel where
  simulationMethod : Nat
deriving DecidableEq, Repr

/-- Everything a call of `step` can reach: the stepper, the clock and the model. -/
structure World where
  ts : TimeStepTetModel
  tm : TimeManager
  model : TetModel

/-! ## External solvers -/

/-- Arguments of `solveDistanceConstraint`. -/
structure DistanceArgs where
  x1 : Vec3
  invMass1 : ℚ
  x2 : Vec3
  invMass2 : ℚ
  restLength : ℚ
  compressionStiffness : ℚ
  stretchStiffness : ℚ
deriving DecidableEq, Repr

/-- Positions and inverse masses of the four vertices of a tetrahedron. -/
structure TetArgs where
  x1 : Vec3
  invMass1 : ℚ
  x2 : Vec3
  invMass2 : ℚ
  x3 : Vec3
  invMass3 : ℚ
  x4 : Vec3
  invMass4 : ℚ
deriving DecidableEq, Repr

/-- Arguments of `solveVolumeConstraint`. -/
structure VolumeArgs where
  p : TetArgs
  restVolume : ℚ
  negVolumeStiffness : ℚ
  posVolumeStiffness : ℚ
deriving DecidableEq, Repr

/-- Arguments of `solveFEMTetraConstraint`. -/
structure FEMArgs where
  p : TetArgs
  restVolume : ℚ
  invRestMat : Mat3
  youngsModulus : ℚ
  poissonRatio : ℚ
  handleInversion : Bool
deriving DecidableEq, Repr

/-- Arguments of `solveStrainTetraConstraint`. -/
structure StrainArgs where
  p : TetArgs
  invRestMat : Mat3
  stretchStiffness : Vec3
  shearStiffness : Vec3
  normalizeStretch : Bool
  normalizeShear : Bool
deriving DecidableEq, Repr

/-- What a two-point solver hands back: the success flag and the corrections. -/
structure Res2 where
  res : Bool
  corr1 : Vec3
  corr2 : Vec3
deriving DecidableEq, Repr

/-- What a four-point solver hands back: the success flag and the corrections. -/
structure Res4 where
  res : Bool
  corr1 : Vec3
  corr2 : Vec3
  corr3 : Vec3
  corr4 : Vec3
deriving DecidableEq, Repr

/-- The external collaborators of the time step: `Eigen`'s `norm()` and the four
constraint solvers of `PositionBasedDynamics`. -/
structure Env where
  norm : Vec3 → ℚ
  solveDistanceConstraint : DistanceArgs → Res2
  solveVolumeConstraint : VolumeArgs → Res4
  solveFEMTetraConstraint : FEMArgs → Res4
  solveStrainTetraConstraint : StrainArgs → Res4

/-- One solver invocation: which solver, at which loop index, with which
arguments. -/
inductive Call where
  | distance (i : Nat) (args : DistanceArgs)
  | volume (i : Nat) (args : VolumeArgs)
  | fem (i : Nat) (args : FEMArgs)
  | strain (i : Nat) (args : StrainArgs)
deriving DecidableEq, Repr

/-- Which solver a call went to and at which loop index. -/
inductive Tag where
  | distance (i : Nat)
  | volume (i : Nat)
  | fem (i : Nat)
  | strain (i : Nat)
deriving DecidableEq, Repr

/-- Forget the arguments of a call. -/
def Call.tag : Call → Tag
  | .distance i _ => .distance i
  | .volume i _ => .volume i
  | .fem i _ => .fem i
  | .strain i _ => .strain i

/-- Whether a call went to the distance solver. -/
def Call.isDistance : Call → Bool
  | .distance _ _ => true
  | _ => false

/-! ## Loops and writes -/

/-- The loop `for (i = 0; i < n; i++) s = body i s`. -/
def forLoop {σ : Type} (body : Nat → σ → σ) : Nat → σ → σ
  | 0, s => s
  | n + 1, s => body n (forLoop body n s)

/-- Write one cell of a memory. -/
def setAt {α : Type} (f : Nat → α) (i : Nat) (a : α) : Nat → α :=
  fun j => if j = i then a else f j

/-- The statement `pd.getPosition(i) += corr`. -/
def ParticleData.addPosition (pd : ParticleData) (i : Nat) (corr : Vec3) : ParticleData :=
  { pd with x := setAt pd.x i (pd.x i + corr) }

/-- The guarded write `if (invMass != 0) x += corr` on particle `i`. -/
def ParticleData.applyCorr (pd : ParticleData) (i : Nat) (invMass : ℚ) (corr : Vec3) :
    ParticleData :=
  if invMass ≠ 0 then pd.addPosition i corr else pd

/-! ## The time stepper -/

/-- State of the projection: the model and the log of solver calls so far. -/
abbrev PState := TetModel × List Call

/-- Gravity, `grav(0.0f, -9.81f, 0.0f)`. -/
def grav : Vec3 := ⟨0, -981 / 100, 0⟩

/-- Body of the loop of `clearAccelerations` for particle `i`. -/
def clearAccelerationsBody (i : Nat) (pd : ParticleData) : ParticleData :=
  if pd.mass i ≠ 0 then { pd with a := setAt pd.a i grav } else pd

/-- `TimeStepTetModel::clearAccelerations`. -/
def clearAccelerations (model : TetModel) : TetModel :=
  let count := model.pd.size
  { model with pd := forLoop clearAccelerationsBody count model.pd }

/-- Body of the loop of `semiImplicitEulerStep` for particle `i`. -/
def semiImplicitEulerBody (h : ℚ) (i : Nat) (pd : ParticleData) : ParticleData :=
  if pd.mass i ≠ 0 then
    let pd1 := { pd with lastX := setAt pd.lastX i (pd.x i) }
    let pd2 := { pd1 with v := setAt pd1.v i (pd1.v i + (pd1.a i).muls h) }
    { pd2 with x := setAt pd2.x i (pd2.x i + (pd2.v i).muls h) }
  else pd

/-- `TimeStepTetModel::semiImplicitEulerStep`. -/
def semiImplicitEulerStep (model : TetModel) (h : ℚ) : TetModel :=
  { model with pd := forLoop (semiImplicitEulerBody h) model.pd.size model.pd }

/-- `TimeStepTetModel::reset`: the body is empty, so the stepper, the clock and the
model come back as they were. -/
def reset (w : World) : World := w

/-- Number of relaxation passes, `maxIter`. -/
def maxIter : Nat := 5

/-- Body of the edge loop of `constraintProjection` for edge `i`. -/
def edgeBody (env : Env) (i : Nat) (s : PState) : PState :=
  let model := s.1
  let pd := model.pd
  let e := model.edges.getD i default
  let v1 := e.v0
  let v2 := e.v1
  let x1_0 := pd.x0 v1
  let x2_0 := pd.x0 v2
  let invMass1 := pd.invMass v1
  let invMass2 := pd.invMass v2
  let restLength := env.norm (x2_0 - x1_0)
  let args : DistanceArgs :=
    ⟨pd.x v1, invMass1, pd.x v2, invMass2, restLength, model.stiffness, model.stiffness⟩
  let r := env.solveDistanceConstraint args
  let pd1 :=
    if r.res then (pd.applyCorr v1 invMass1 r.corr1).applyCorr v2 invMass2 r.corr2
    else pd
  ({ model with pd := pd1 }, s.2 ++ [Call.distance i args])

/-- Signed current volume of method 2:
`-(1.0f / 6.0f) * (x4 - x1).dot((x3 - x1).cross(x2 - x1))`. -/
def currentVolume (x1 x2 x3 x4 : Vec3) : ℚ :=
  -(1 / 6) * (x4 - x1).dot ((x3 - x1).cross (x2 - x1))

/-- The flag of method 2: set when `currentVolume / tetVolume < 0.2`. -/
def handleInversionFlag (x1 x2 x3 x4 : Vec3) (tetVolume : ℚ) : Bool :=
  if currentVolume x1 x2 x3 x4 / tetVolume < 1 / 5 then true else false

/-- The solver selection inside the tetrahedron loop: the result `res`, the
corrections and the calls made (none when no method matches, `res` staying
`false`). -/
def tetSolve (env : Env) (method : Nat) (model : TetModel) (i : Nat) (p : TetArgs) :
    Res4 × List Call :=
  let tc := model.tetConstraints.getD i default
  if method = 1 then
    let args : VolumeArgs := ⟨p, tc.tetVolume, model.stiffness, model.stiffness⟩
    (env.solveVolumeConstraint args, [Call.volume i args])
  else if method = 2 then
    let handleInversion := handleInversionFlag p.x1 p.x2 p.x3 p.x4 tc.tetVolume
    let args : FEMArgs :=
      ⟨p, tc.tetVolume, tc.invRestMat_FEM, model.stiffness, model.poissonRatio, handleInversion⟩
    (env.solveFEMTetraConstraint args, [Call.fem i args])
  else if method = 3 then
    let stiffness : Vec3 := ⟨model.stiffness, model.stiffness, model.stiffness⟩
    let args : StrainArgs :=
      ⟨p, tc.invRestMat_SBD, stiffness, stiffness, model.normalizeStretch, model.normalizeShear⟩
    (env.solveStrainTetraConstraint args, [Call.strain i args])
  else
    (⟨false, default, default, default, default⟩, [])

/-- Body of the tetrahedron loop of `constraintProjection` for tetrahedron `i`. -/
def tetBody (env : Env) (method : Nat) (i : Nat) (s : PState) : PState :=
  let model := s.1
  let pd := model.pd
  let v1 := model.tets.getD (4 * i) 0
  let v2 := model.tets.getD (4 * i + 1) 0
  let v3 := model.tets.getD (4 * i + 2) 0
  let v4 := model.tets.getD (4 * i + 3) 0
  let invMass1 := pd.invMass v1
  let invMass2 := pd.invMass v2
  let invMass3 := pd.invMass v3
  let invMass4 := pd.invMass v4
  let p : TetArgs := ⟨pd.x v1, invMass1, pd.x v2, invMass2, pd.x v3, invMass3, pd.x v4, invMass4⟩
  let rc := tetSolve env method model i p
  let r := rc.1
  let pd1 :=
    if r.res then
      (((pd.applyCorr v1 invMass1 r.corr1).applyCorr v2 invMass2 r.corr2).applyCorr
        v3 invMass3 r.corr3).applyCorr v4 invMass4 r.corr4
    else pd
  ({ model with pd := pd1 }, s.2 ++ rc.2)

/-- One pass of the `while` loop of `constraintProjection`: the edge sweep under
method 1, then the tetrahedron sweep. -/
def iteration (env : Env) (ts : TimeStepTetModel) (s : PState) : PState :=
  let nTets := s.1.numTets
  let s1 :=
    if ts.simulationMethod = 1 then forLoop (edgeBody env) s.1.numEdges s
    else s
  forLoop (tetBody env ts.simulationMethod) nTets s1

/-- The loop `while (iter < maxIter) { ...; iter++; }`. -/
def projectionLoop (env : Env) (ts : TimeStepTetModel) (iter : Nat) (s : PState) : PState :=
  if iter < maxIter then projectionLoop env ts (iter + 1) (iteration env ts s) else s
termination_by maxIter - iter

/-- `TimeStepTetModel::constraintProjection`, with the log of solver calls. -/
def constraintProjectionLog (env : Env) (ts : TimeStepTetModel) (model : TetModel) : PState :=
  projectionLoop env ts 0 (model, [])

/-- `TimeStepTetModel::constraintProjection`. -/
def constraintProjection (env : Env) (ts : TimeStepTetModel) (model : TetModel) : TetModel :=
  (constraintProjectionLog env ts model).1

/-- Body of the velocity loop of `step` for particle `i`. -/
def updateVelocityBody (h : ℚ) (i : Nat) (pd : ParticleData) : ParticleData :=
  { pd with v := setAt pd.v i (Vec3.smul (1 / h) (pd.x i - pd.lastX i)) }

/-- `TimeStepTetModel::step`. -/
def step (env : Env) (w : World) : World :=
  let h := w.tm.h
  let m1 := clearAccelerations w.model
  let m2 := semiImplicitEulerStep m1 h
  let m3 := constraintProjection env w.ts m2
  let m4 := { m3 with pd := forLoop (updateVelocityBody h) m3.pd.size m3.pd }
  { w with model := m4, tm := { w.tm with time := w.tm.time + h } }

/-- Calls `step` `n` times. -/
def stepN (env : Env) : Nat → World → World
  | 0, w => w
  | n + 1, w => step env (stepN env n w)

/-- The model with its position array replaced and nothing else changed. -/
def TetModel.withX (m : TetModel) (x : Nat → Vec3) : TetModel :=
  { m with pd := { m.pd with x := x } }

/-- Solver tags of the visit of tetrahedron `i` under a method: one call of the
solver the method selects, none when the method is not 1, 2 or 3. -/
def tetTag (method : Nat) (i : Nat) : List Tag :=
  if method = 1 then [Tag.volume i]
  else if method = 2 then [Tag.fem i]
  else if method = 3 then [Tag.strain i]
  else []

/-- Solver tags of one pass, in order: the edges `0 .. nEdges - 1` (method 1 only),
then the tetrahedra `0 .. nTets - 1`. -/
def passTags (method nEdges nTets : Nat) : List Tag :=
  (if method = 1 then (List.range nEdges).map Tag.distance else []) ++
    (List.range nTets).flatMap (tetTag method)

/-- The part of a model that is fixed at setup: particle count, masses, inverse
masses, rest positions, edge list, tetrahedron index buffer, constraint records
and the configuration values. -/
def staticPart (m : TetModel) :
    Nat × (Nat → ℚ) × (Nat → ℚ) × (Nat → Vec3) × List Edge × List Nat × List TetConstraint ×
      ℚ × ℚ × Bool × Bool :=
  (m.pd.size, m.pd.mass, m.pd.invMass, m.pd.x0, m.edges, m.tets, m.tetConstraints,
    m.stiffness, m.poissonRatio, m.normalizeStretch, m.normalizeShear)

/-- The model on which `step` runs the projection: after gravity and integration. -/
def integrated (w : World) : TetModel :=
  semiImplicitEulerStep (clearAccelerations w.model) w.tm.h

/-- The model after the projection phase of `step`. -/
def projected (env : Env) (w : World) : TetModel :=
  constraintProjection env w.ts (integrated w)

/-! ## Concrete data -/

/-- Two particles on the x axis: particle 0 is free (mass 1), particle 1 is fixed
(mass 0); rest distance 1, current distance 2. -/
def demoPd : ParticleData where
  size := 2
  mass := fun i => if i = 0 then 1 else 0
  invMass := fun i => if i = 0 then 1 else 0
  x0 := fun i => if i = 0 then ⟨0, 0, 0⟩ else ⟨1, 0, 0⟩
  x := fun i => if i = 0 then ⟨-1, 0, 0⟩ else ⟨1, 0, 0⟩
  v := fun _ => ⟨1, 2, 3⟩
  a := fun _ => ⟨4, 5, 6⟩
  lastX := fun _ => ⟨7, 8, 9⟩

/-- The two particles of `demoPd` joined by one edge, no tetrahedron. -/
def demoModel : TetModel where
  pd := demoPd
  edges := [⟨0, 1⟩]
  tets := []
  tetConstraints := []
  stiffness := 1
  poissonRatio := 3 / 10
  normalizeStretch := false
  normalizeShear := false

/-- Solvers that always succeed and hand back nonzero corrections for every vertex,
fixed or not. -/
def demoEnv : Env where
  norm := fun v => |v.x| + |v.y| + |v.z|
  solveDistanceConstraint := fun _ => ⟨true, ⟨1 / 2, 0, 0⟩, ⟨-1 / 2, 0, 0⟩⟩
  solveVolumeConstraint := fun _ => ⟨true, ⟨1, 0, 0⟩, ⟨0, 1, 0⟩, ⟨0, 0, 1⟩, ⟨1, 1, 1⟩⟩
  solveFEMTetraConstraint := fun _ => ⟨true, ⟨1, 0, 0⟩, ⟨0, 1, 0⟩, ⟨0, 0, 1⟩, ⟨1, 1, 1⟩⟩
  solveStrainTetraConstraint := fun _ => ⟨true, ⟨1, 0, 0⟩, ⟨0, 1, 0⟩, ⟨0, 0, 1⟩, ⟨1, 1, 1⟩⟩

/-- The demo model under method 1 with step size 1/2 at time 0. -/
def demoWorld : World where
  ts := ⟨1⟩
  tm := ⟨0, 1 / 2⟩
  model := demoModel

/-- One particle at rest at the origin whose stored mass (1) and inverse mass (0)
disagree. -/
def inconsistentPd : ParticleData where
  size := 1
  mass := fun _ => 1
  invMass := fun _ => 0
  x0 := fun _ => ⟨0, 0, 0⟩
  x := fun _ => ⟨0, 0, 0⟩
  v := fun _ => ⟨0, 0, 0⟩
  a := fun _ => ⟨0, 0, 0⟩
  lastX := fun _ => ⟨0, 0, 0⟩

/-- The particle of `inconsistentPd` alone, no constraint, method 1, step size 1. -/
def inconsistentWorld : World where
  ts := ⟨1⟩
  tm := ⟨0, 1⟩
  model :=
    { pd := inconsistentPd
      edges := []
      tets := []
      tetConstraints := []
      stiffness := 1
      poissonRatio := 3 / 10
      normalizeStretch := false
      normalizeShear := false }

/-- Solvers that always report failure, and still write nonzero corrections. -/
def failEnv : Env where
  norm := fun v => |v.x| + |v.y| + |v.z|
  solveDistanceConstraint := fun _ => ⟨false, ⟨1 / 2, 0, 0⟩, ⟨-1 / 2, 0, 0⟩⟩
  solveVolumeConstraint := fun _ => ⟨false, ⟨1, 0, 0⟩, ⟨0, 1, 0⟩, ⟨0, 0, 1⟩, ⟨1, 1, 1⟩⟩
  solveFEMTetraConstraint := fun _ => ⟨false, ⟨1, 0, 0⟩, ⟨0, 1, 0⟩, ⟨0, 0, 1⟩, ⟨1, 1, 1⟩⟩
  solveStrainTetraConstraint := fun _ => ⟨false, ⟨1, 0, 0⟩, ⟨0, 1, 0⟩, ⟨0, 0, 1⟩, ⟨1, 1, 1⟩⟩

/-- Four free particles: the unit corner tetrahedron squashed along z to a tenth of
its height (current volume 1/60). -/
def squashedPd : ParticleData where
  size := 4
  mass := fun _ => 1
  invMass := fun _ => 1
  x0 := fun i =>
    if i = 0 then ⟨0, 0, 0⟩ else if i = 1 then ⟨1, 0, 0⟩ else if i = 2 then ⟨0, 1, 0⟩
    else ⟨0, 0, 1⟩
  x := fun i =>
    if i = 0 then ⟨0, 0, 0⟩ else if i = 1 then ⟨1, 0, 0⟩ else if i = 2 then ⟨0, 1, 0⟩
    else ⟨0, 0, 1 / 10⟩
  v := fun _ => ⟨0, 0, 0⟩
  a := fun _ => ⟨0, 0, 0⟩
  lastX := fun _ => ⟨0, 0, 0⟩

/-- One tetrahedron on the particles of `squashedPd`, rest volume 1/6. -/
def squashedModel : TetModel where
  pd := squashedPd
  edges := [⟨0, 1⟩, ⟨0, 2⟩, ⟨0, 3⟩, ⟨1, 2⟩, ⟨1, 3⟩, ⟨2, 3⟩]
  tets := [0, 1, 2, 3]
  tetConstraints := [⟨1 / 6, default, default⟩]
  stiffness := 1
  poissonRatio := 3 / 10
  normalizeStretch := false
  normalizeShear := false

/-- The success flag that the solver of `env` hands back for a logged call. -/
def Call.res (env : Env) : Call → Bool
  | .distance _ a => (env.solveDistanceConstraint a).res
  | .volume _ a => (env.solveVolumeConstraint a).res
  | .fem _ a => (env.solveFEMTetraConstraint a).res
  | .strain _ a => (env.solveStrainTetraConstraint a).res

/-- Replace the edge list of the model of a projection state. -/
def setEdges (edges : List Edge) (s : PState) : PState :=
  ({ s.1 with edges := edges }, s.2)

/-- A step without the projection phase: gravity, integration, velocity
reconstruction and clock advance. -/
def stepWithoutProjection (w : World) : World :=
  let h := w.tm.h
  let m2 := semiImplicitEulerStep (clearAccelerations w.model) h
  { w with
    model := { m2 with pd := forLoop (updateVelocityBody h) m2.pd.size m2.pd }
    tm := { w.tm with time := w.tm.time + h } }

/-- One Gauss-Seidel pass in the words of the spec: a left-to-right fold over the edges
in index order (under method 1 only), followed by a left-to-right fold over the
tetrahedra in index order; each constraint works on the state left by the ones before
it. -/
def gaussSeidelPass (env : Env) (ts : TimeStepTetModel) (s : PState) : PState :=
  let afterEdges :=
    if ts.simulationMethod = 1 then
      (List.range s.1.numEdges).foldl (fun st i => edgeBody env i st) s
    else s
  (List.range s.1.numTets).foldl (fun st i => tetBody env ts.simulationMethod i st) afterEdges

/-- The projection in the words of the spec: five passes in sequence, starting from an
empty log. -/
def fivePasses (env : Env) (ts : TimeStepTetModel) (model : TetModel) : PState :=
  gaussSeidelPass env ts
    (gaussSeidelPass env ts
      (gaussSeidelPass env ts (gaussSeidelPass env ts (gaussSeidelPass env ts (model, [])))))

/-- The demo model with a third particle that no edge and no tetrahedron refers to. -/
def spareModel : TetModel :=
  { demoModel with pd := { demoPd with size := 3 } }

/-- Two models hand the solvers of a method the same inputs: same particle data, edge
list, tetrahedron index buffer and stiffness, and the same values in the fields that the
solver of that method is given (rest volume under method 1; rest volume, FEM matrix and
Poisson ratio under method 2; strain matrix and normalization flags under method 3). -/
def sameInputs (method : Nat) (a b : TetModel) : Prop :=
  a.pd = b.pd ∧ a.edges = b.edges ∧ a.tets = b.tets ∧ a.stiffness = b.stiffness ∧
    (method = 1 → ∀ i,
      (a.tetConstraints.getD i default).tetVolume =
        (b.tetConstraints.getD i default).tetVolume) ∧
    (method = 2 →
      (∀ i,
        (a.tetConstraints.getD i default).tetVolume =
            (b.tetConstraints.getD i default).tetVolume ∧
          (a.tetConstraints.getD i default).invRestMat_FEM =
            (b.tetConstraints.getD i default).invRestMat_FEM) ∧
      a.poissonRatio = b.poissonRatio) ∧
    (method = 3 →
      (∀ i,
        (a.tetConstraints.getD i default).invRestMat_SBD =
          (b.tetConstraints.getD i default).invRestMat_SBD) ∧
      a.normalizeStretch = b.normalizeStretch ∧ a.normalizeShear = b.normalizeShear)

/-- A matrix with nonzero entries, to vary a constraint record with. -/
def otherMat : Mat3 := ⟨⟨1, 2, 3⟩, ⟨4, 5, 6⟩, ⟨7, 8, 10⟩⟩

/-! ## Rounded arithmetic

The definitions above idealise `float` as exact rationals. The definitions of this
section are the same statements of the source with every float operation rounded: each
arithmetic result is passed through `Arith.rnd`. With `exactArith` they are the exact
definitions again; with `f32Arith` they compute in float32 (round to nearest, ties to
even, 24-bit significand) as long as all values are finite and normal. -/

/-- The float arithmetic: the rounding applied to the result of every operation, and
`Eigen`'s `dot` and `cross`, which round inside. -/
structure Arith where
  rnd : ℚ → ℚ
  dot : Vec3 → Vec3 → ℚ
  cross : Vec3 → Vec3 → Vec3

/-- Componentwise sum, each component rounded. -/
def Vec3.addR (rnd : ℚ → ℚ) (a b : Vec3) : Vec3 :=
  ⟨rnd (a.x + b.x), rnd (a.y + b.y), rnd (a.z + b.z)⟩

/-- Componentwise difference, each component rounded. -/
def Vec3.subR (rnd : ℚ → ℚ) (a b : Vec3) : Vec3 :=
  ⟨rnd (a.x - b.x), rnd (a.y - b.y), rnd (a.z - b.z)⟩

/-- Vector times scalar, each component rounded. -/
def Vec3.mulsR (rnd : ℚ → ℚ) (a : Vec3) (k : ℚ) : Vec3 :=
  ⟨rnd (a.x * k), rnd (a.y * k), rnd (a.z * k)⟩

/-- Scalar times vector, each component rounded. -/
def Vec3.smulR (rnd : ℚ → ℚ) (k : ℚ) (a : Vec3) : Vec3 :=
  ⟨rnd (k * a.x), rnd (k * a.y), rnd (k * a.z)⟩

/-- Exact arithmetic: nothing is rounded. -/
def exactArith : Arith := ⟨id, Vec3.dot, Vec3.cross⟩

/-- Round `q` to the nearest integer multiple of `2 ^ k`, a tie going to the even
multiple. -/
def roundToGrid (k : ℤ) (q : ℚ) : ℚ :=
  let s := q / 2 ^ k
  let f := ⌊s⌋
  let r := s - f
  let n : ℤ :=
    if r < 1 / 2 then f else if 1 / 2 < r then f + 1 else if f % 2 = 0 then f else f + 1
  n * 2 ^ k

/-- Round to the nearest float32: 24 significant bits, ties to even. The exponent is
not bounded, so overflow, subnormal and non-finite values are not represented. -/
def roundF32 (q : ℚ) : ℚ :=
  if q = 0 then 0 else roundToGrid (Int.log 2 |q| - 23) q

/-- Float32 arithmetic, with `dot` and `cross` rounding every product and sum from left
to right. -/
def f32Arith : Arith where
  rnd := roundF32
  dot := fun a b =>
    roundF32 (roundF32 (roundF32 (a.x * b.x) + roundF32 (a.y * b.y)) + roundF32 (a.z * b.z))
  cross := fun a b =>
    ⟨roundF32 (roundF32 (a.y * b.z) - roundF32 (a.z * b.y)),
      roundF32 (roundF32 (a.z * b.x) - roundF32 (a.x * b.z)),
      roundF32 (roundF32 (a.x * b.y) - roundF32 (a.y * b.x))⟩

/-- The statement `pd.getPosition(i) += corr` in rounded arithmetic. -/
def ParticleData.addPositionR (ar : Arith) (pd : ParticleData) (i : Nat) (corr : Vec3) :
    ParticleData :=
  { pd with x := setAt pd.x i (Vec3.addR ar.rnd (pd.x i) corr) }

/-- The guarded write `if (invMass != 0) x += corr` in rounded arithmetic. -/
def ParticleData.applyCorrR (ar : Arith) (pd : ParticleData) (i : Nat) (invMass : ℚ)
    (corr : Vec3) : ParticleData :=
  if invMass ≠ 0 then pd.addPositionR ar i corr else pd

/-- Gravity as a float vector: the literals `0.0f`, `-9.81f`, `0.0f`. -/
def gravR (ar : Arith) : Vec3 := ⟨0, ar.rnd (-981 / 100), 0⟩

/-- Body of the loop of `clearAccelerations`, gravity being the float vector. -/
def clearAccelerationsBodyR (ar : Arith) (i : Nat) (pd : ParticleData) : ParticleData :=
  if pd.mass i ≠ 0 then { pd with a := setAt pd.a i (gravR ar) } else pd

/-- `TimeStepTetModel::clearAccelerations` with the float gravity vector. -/
def clearAccelerationsR (ar : Arith) (model : TetModel) : TetModel :=
  let count := model.pd.size
  { model with pd := forLoop (clearAccelerationsBodyR ar) count model.pd }

/-- Body of the loop of `semiImplicitEulerStep` in rounded arithmetic. -/
def semiImplicitEulerBodyR (ar : Arith) (h : ℚ) (i : Nat) (pd : ParticleData) :
    ParticleData :=
  if pd.mass i ≠ 0 then
    let pd1 := { pd with lastX := setAt pd.lastX i (pd.x i) }
    let pd2 :=
      { pd1 with v := setAt pd1.v i (Vec3.addR ar.rnd (pd1.v i) (Vec3.mulsR ar.rnd (pd1.a i) h)) }
    { pd2 with x := setAt pd2.x i (Vec3.addR ar.rnd (pd2.x i) (Vec3.mulsR ar.rnd (pd2.v i) h)) }
  else pd

/-- `TimeStepTetModel::semiImplicitEulerStep` in rounded arithmetic. -/
def semiImplicitEulerStepR (ar : Arith) (model : TetModel) (h : ℚ) : TetModel :=
  { model with pd := forLoop (semiImplicitEulerBodyR ar h) model.pd.size model.pd }

/-- Body of the edge loop of `constraintProjection` in rounded arithmetic. -/
def edgeBodyR (ar : Arith) (env : Env) (i : Nat) (s : PState) : PState :=
  let model := s.1
  let pd := model.pd
  let e := model.edges.getD i default
  let v1 := e.v0
  let v2 := e.v1
  let x1_0 := pd.x0 v1
  let x2_0 := pd.x0 v2
  let invMass1 := pd.invMass v1
  let invMass2 := pd.invMass v2
  let restLength := env.norm (Vec3.subR ar.rnd x2_0 x1_0)
  let args : DistanceArgs :=
    ⟨pd.x v1, invMass1, pd.x v2, invMass2, restLength, model.stiffness, model.stiffness⟩
  let r := env.solveDistanceConstraint args
  let pd1 :=
    if r.res then (pd.applyCorrR ar v1 invMass1 r.corr1).applyCorrR ar v2 invMass2 r.corr2
    else pd
  ({ model with pd := pd1 }, s.2 ++ [Call.distance i args])

/-- Current volume of method 2 in rounded arithmetic. -/
def currentVolumeR (ar : Arith) (x1 x2 x3 x4 : Vec3) : ℚ :=
  ar.rnd (-(ar.rnd (1 / 6)) *
    ar.dot (Vec3.subR ar.rnd x4 x1)
      (ar.cross (Vec3.subR ar.rnd x3 x1) (Vec3.subR ar.rnd x2 x1)))

/-- The flag of method 2 in rounded arithmetic: the rounded quotient is compared with
the literal `0.2`, read as `1/5`. -/
def handleInversionFlagR (ar : Arith) (x1 x2 x3 x4 : Vec3) (tetVolume : ℚ) : Bool :=
  if ar.rnd (currentVolumeR ar x1 x2 x3 x4 / tetVolume) < 1 / 5 then true else false

/-- The solver selection inside the tetrahedron loop in rounded arithmetic. -/
def tetSolveR (ar : Arith) (env : Env) (method : Nat) (model : TetModel) (i : Nat)
    (p : TetArgs) : Res4 × List Call :=
  let tc := model.tetConstraints.getD i default
  if method = 1 then
    let args : VolumeArgs := ⟨p, tc.tetVolume, model.stiffness, model.stiffness⟩
    (env.solveVolumeConstraint args, [Call.volume i args])
  else if method = 2 then
    let handleInversion := handleInversionFlagR ar p.x1 p.x2 p.x3 p.x4 tc.tetVolume
    let args : FEMArgs :=
      ⟨p, tc.tetVolume, tc.invRestMat_FEM, model.stiffness, model.poissonRatio, handleInversion⟩
    (env.solveFEMTetraConstraint args, [Call.fem i args])
  else if method = 3 then
    let stiffness : Vec3 := ⟨model.stiffness, model.stiffness, model.stiffness⟩
    let args : StrainArgs :=
      ⟨p, tc.invRestMat_SBD, stiffness, stiffness, model.normalizeStretch, model.normalizeShear⟩
    (env.solveStrainTetraConstraint args, [Call.strain i args])
  else
    (⟨false, default, default, default, default⟩, [])

/-- Body of the tetrahedron loop of `constraintProjection` in rounded arithmetic. -/
def tetBodyR (ar : Arith) (env : Env) (method : Nat) (i : Nat) (s : PState) : PState :=
  let model := s.1
  let pd := model.pd
  let v1 := model.tets.getD (4 * i) 0
  let v2 := model.tets.getD (4 * i + 1) 0
  let v3 := model.tets.getD (4 * i + 2) 0
  let v4 := model.tets.getD (4 * i + 3) 0
  let invMass1 := pd.invMass v1
  let invMass2 := pd.invMass v2
  let invMass3 := pd.invMass v3
  let invMass4 := pd.invMass v4
  let p : TetArgs := ⟨pd.x v1, invMass1, pd.x v2, invMass2, pd.x v3, invMass3, pd.x v4, invMass4⟩
  let rc := tetSolveR ar env method model i p
  let r := rc.1
  let pd1 :=
    if r.res then
      (((pd.applyCorrR ar v1 invMass1 r.corr1).applyCorrR ar v2 invMass2 r.corr2).applyCorrR ar
        v3 invMass3 r.corr3).applyCorrR ar v4 invMass4 r.corr4
    else pd
  ({ model with pd := pd1 }, s.2 ++ rc.2)

/-- One pass of the `while` loop of `constraintProjection` in rounded arithmetic. -/
def iterationR (ar : Arith) (env : Env) (ts : TimeStepTetModel) (s : PState) : PState :=
  let nTets := s.1.numTets
  let s1 :=
    if ts.simulationMethod = 1 then forLoop (edgeBodyR ar env) s.1.numEdges s
    else s
  forLoop (tetBodyR ar env ts.simulationMethod) nTets s1

/-- The loop `while (iter < maxIter) { ...; iter++; }` in rounded arithmetic. -/
def projectionLoopR (ar : Arith) (env : Env) (ts : TimeStepTetModel) (iter : Nat)
    (s : PState) : PState :=
  if iter < maxIter then projectionLoopR ar env ts (iter + 1) (iterationR ar env ts s) else s
termination_by maxIter - iter

/-- `TimeStepTetModel::constraintProjection` in rounded arithmetic, with the log of
solver calls. -/
def constraintProjectionLogR (ar : Arith) (env : Env) (ts : TimeStepTetModel)
    (model : TetModel) : PState :=
  projectionLoopR ar env ts 0 (model, [])

/-- `TimeStepTetModel::constraintProjection` in rounded arithmetic. -/
def constraintProjectionR (ar : Arith) (env : Env) (ts : TimeStepTetModel)
    (model : TetModel) : TetModel :=
  (constraintProjectionLogR ar env ts model).1

/-- Body of the velocity loop of `step` in rounded arithmetic:
`1.0f / h * (position - lastPosition)`, the quotient, the difference and the product
each rounded. -/
def updateVelocityBodyR (ar : Arith) (h : ℚ) (i : Nat) (pd : ParticleData) : ParticleData :=
  { pd with
    v := setAt pd.v i
      (Vec3.smulR ar.rnd (ar.rnd (1 / h)) (Vec3.subR ar.rnd (pd.x i) (pd.lastX i))) }

/-- The model on which `stepR` runs the projection: after gravity and integration. -/
def integratedR (ar : Arith) (w : World) : TetModel :=
  semiImplicitEulerStepR ar (clearAccelerationsR ar w.model) w.tm.h

/-- The model after the projection phase of `stepR`. -/
def projectedR (ar : Arith) (env : Env) (w : World) : TetModel :=
  constraintProjectionR ar env w.ts (integratedR ar w)

/-- `TimeStepTetModel::step` in rounded arithmetic. -/
def stepR (ar : Arith) (env : Env) (w : World) : World :=
  let h := w.tm.h
  let m1 := clearAccelerationsR ar w.model
  let m2 := semiImplicitEulerStepR ar m1 h
  let m3 := constraintProjectionR ar env w.ts m2
  let m4 := { m3 with pd := forLoop (updateVelocityBodyR ar h) m3.pd.size m3.pd }
  { w with model := m4, tm := { w.tm with time := ar.rnd (w.tm.time + h) } }

/-- One fixed particle at (21, 0, 0) whose stored last position is the origin; no
constraint, step size 7. -/
def reciprocalWorld : World where
  ts := ⟨1⟩
  tm := ⟨0, 7⟩
  model :=
    { pd :=
        { size := 1
          mass := fun _ => 0
          invMass := fun _ => 0
          x0 := fun _ => ⟨21, 0, 0⟩
          x := fun _ => ⟨21, 0, 0⟩
          v := fun _ => ⟨0, 0, 0⟩
          a := fun _ => ⟨0, 0, 0⟩
          lastX := fun _ => ⟨0, 0, 0⟩ }
      edges := []
      tets := []
      tetConstraints := []
      stiffness := 1
      poissonRatio := 3 / 10
      normalizeStretch := false
      normalizeShear := false }

theorem forLoop_invariant {σ : Type} (P : σ → Prop) (body : Nat → σ → σ)
    (hbody : ∀ i s, P s → P (body i s)) (n : Nat) (s : σ) (hs : P s) :
    P (forLoop body n s) := by
  induction n with
  | zero => exact hs
  | succ n ih => exact hbody n _ ih

theorem forLoop_clearAccelerations (n : Nat) (pd : ParticleData) :
    forLoop clearAccelerationsBody n pd =
      { pd with a := fun j => if j < n ∧ pd.mass j ≠ 0 then grav else pd.a j } := by
  induction n with
  | zero => simp [forLoop]
  | succ n ih =>
    simp only [forLoop, ih, clearAccelerationsBody]
    split_ifs with hm
    · congr 1
      funext j
      simp only [setAt]
      by_cases hj : j = n
      · subst hj; simp [hm]
      · have : (j < n + 1) ↔ (j < n) := by omega
        simp [hj, this]
    · congr 1
      funext j
      by_cases hj : j = n
      · subst hj; simp [hm]
      · have : (j < n + 1) ↔ (j < n) := by omega
        simp [this]

theorem forLoop_semiImplicitEuler (h : ℚ) (n : Nat) (pd : ParticleData) :
    forLoop (semiImplicitEulerBody h) n pd =
      { pd with
        lastX := fun j => if j < n ∧ pd.mass j ≠ 0 then pd.x j else pd.lastX j
        v := fun j => if j < n ∧ pd.mass j ≠ 0 then pd.v j + (pd.a j).muls h else pd.v j
        x := fun j =>
          if j < n ∧ pd.mass j ≠ 0 then pd.x j + (pd.v j + (pd.a j).muls h).muls h
          else pd.x j } := by
  induction n with
  | zero => simp [forLoop]
  | succ n ih =>
    have key : ∀ j, j ≠ n → ((j < n + 1) ↔ (j < n)) := fun j hj => by omega
    by_cases hm : pd.mass n = 0
    · simp only [forLoop, ih, semiImplicitEulerBody, hm, ne_eq, not_true_eq_false, if_false]
      congr 1 <;> funext j <;> by_cases hj : j = n
      all_goals first
        | (subst hj; simp [hm])
        | simp [key j hj]
    · simp only [forLoop, ih, semiImplicitEulerBody, hm, ne_eq, not_false_eq_true, if_true]
      congr 1 <;> funext j <;> by_cases hj : j = n
      all_goals first
        | (subst hj; simp [hm, setAt])
        | simp [key j hj, hj, setAt]

theorem forLoop_updateVelocity (h : ℚ) (n : Nat) (pd : ParticleData) :
    forLoop (updateVelocityBody h) n pd =
      { pd with
        v := fun j => if j < n then Vec3.smul (1 / h) (pd.x j - pd.lastX j) else pd.v j } := by
  induction n with
  | zero => simp [forLoop]
  | succ n ih =>
    simp only [forLoop, ih, updateVelocityBody]
    congr 1
    funext j
    simp only [setAt]
    by_cases hj : j = n
    · subst hj; simp
    · have : (j < n + 1) ↔ (j < n) := by omega
      simp [hj, this]

/-! ## Vector arithmetic -/

theorem Vec3.add_def (a b : Vec3) : a + b = ⟨a.x + b.x, a.y + b.y, a.z + b.z⟩ := rfl

theorem Vec3.sub_def (a b : Vec3) : a - b = ⟨a.x - b.x, a.y - b.y, a.z - b.z⟩ := rfl

theorem Vec3.muls_eq_smul (a : Vec3) (h : ℚ) : a.muls h = Vec3.smul h a := by
  simp only [Vec3.smul, Vec3.muls, Vec3.mk.injEq]
  refine ⟨?_, ?_, ?_⟩ <;> ring

/-! ## Frame of the projection -/

theorem withX_withX (m : TetModel) (x y : Nat → Vec3) : (m.withX x).withX y = m.withX y := rfl

theorem withX_self (m : TetModel) : m.withX m.pd.x = m := rfl

theorem frame_trans {s t u : TetModel} (h1 : t = s.withX t.pd.x) (h2 : u = t.withX u.pd.x) :
    u = s.withX u.pd.x := by
  refine h2.trans ?_
  rw [h1]
  rfl

theorem applyCorr_frame (pd : ParticleData) (i : Nat) (w : ℚ) (c : Vec3) :
    pd.applyCorr i w c = { pd with x := (pd.applyCorr i w c).x } := by
  unfold ParticleData.applyCorr ParticleData.addPosition
  split <;> rfl

theorem applyCorr_x_of_guard (pd : ParticleData) (i : Nat) (w : ℚ) (c : Vec3) (j : Nat)
    (hg : w ≠ 0 → i ≠ j) : (pd.applyCorr i w c).x j = pd.x j := by
  unfold ParticleData.applyCorr ParticleData.addPosition
  split
  · next hw =>
    have hij : j ≠ i := fun e => hg hw e.symm
    simp [setAt, hij]
  · rfl

theorem edgeBody_frame (env : Env) (i : Nat) (s : PState) :
    (edgeBody env i s).1 = s.1.withX (edgeBody env i s).1.pd.x := by
  simp only [edgeBody, TetModel.withX]
  split
  · rw [applyCorr_frame (s.1.pd.applyCorr _ _ _), applyCorr_frame s.1.pd]
  · rfl

theorem tetBody_frame (env : Env) (method : Nat) (i : Nat) (s : PState) :
    (tetBody env method i s).1 = s.1.withX (tetBody env method i s).1.pd.x := by
  simp only [tetBody, TetModel.withX]
  split
  · rw [applyCorr_frame (((s.1.pd.applyCorr _ _ _).applyCorr _ _ _).applyCorr _ _ _),
      applyCorr_frame ((s.1.pd.applyCorr _ _ _).applyCorr _ _ _),
      applyCorr_frame (s.1.pd.applyCorr _ _ _), applyCorr_frame s.1.pd]
  · rfl

theorem edgeBody_x_fixed (env : Env) (i : Nat) (s : PState) (j : Nat)
    (hj : s.1.pd.invMass j = 0) : (edgeBody env i s).1.pd.x j = s.1.pd.x j := by
  simp only [edgeBody]
  split
  · rw [applyCorr_x_of_guard, applyCorr_x_of_guard]
    · intro hw e; exact hw (e ▸ hj)
    · intro hw e; exact hw (e ▸ hj)
  · rfl

theorem tetBody_x_fixed (env : Env) (method : Nat) (i : Nat) (s : PState) (j : Nat)
    (hj : s.1.pd.invMass j = 0) : (tetBody env method i s).1.pd.x j = s.1.pd.x j := by
  simp only [tetBody]
  split
  · rw [applyCorr_x_of_guard, applyCorr_x_of_guard, applyCorr_x_of_guard, applyCorr_x_of_guard]
    all_goals (intro hw e; exact hw (e ▸ hj))
  · rfl

/-! ## The `while` loop and its invariants -/

theorem projectionLoop_eq_iterate (env : Env) (ts : TimeStepTetModel) :
    ∀ (d k : Nat) (s : PState), maxIter - k = d →
      projectionLoop env ts k s = (iteration env ts)^[d] s := by
  intro d
  induction d with
  | zero =>
    intro k s hk
    rw [projectionLoop, if_neg (by omega)]
    rfl
  | succ d ih =>
    intro k s hk
    rw [projectionLoop, if_pos (by omega), ih (k + 1) _ (by omega)]
    rfl

theorem constraintProjectionLog_eq_iterate (env : Env) (ts : TimeStepTetModel)
    (model : TetModel) :
    constraintProjectionLog env ts model = (iteration env ts)^[5] (model, []) :=
  projectionLoop_eq_iterate env ts 5 0 (model, []) rfl

theorem iteration_invariant_of (env : Env) (ts : TimeStepTetModel) (P : PState → Prop)
    (hE : ts.simulationMethod = 1 → ∀ i s, P s → P (edgeBody env i s))
    (hT : ∀ i s, P s → P (tetBody env ts.simulationMethod i s))
    (s : PState) (hs : P s) : P (iteration env ts s) := by
  unfold iteration
  apply forLoop_invariant P _ hT
  split
  · next hmeth => exact forLoop_invariant P _ (hE hmeth) _ _ hs
  · exact hs

theorem iterate_invariant_of (env : Env) (ts : TimeStepTetModel) (P : PState → Prop)
    (hE : ts.simulationMethod = 1 → ∀ i s, P s → P (edgeBody env i s))
    (hT : ∀ i s, P s → P (tetBody env ts.simulationMethod i s))
    (k : Nat) (s : PState) (hs : P s) : P ((iteration env ts)^[k] s) := by
  induction k with
  | zero => exact hs
  | succ k ih =>
    rw [Function.iterate_succ_apply']
    exact iteration_invariant_of env ts P hE hT _ ih

theorem iterate_invariant (env : Env) (ts : TimeStepTetModel) (P : PState → Prop)
    (hE : ∀ i s, P s → P (edgeBody env i s))
    (hT : ∀ i s, P s → P (tetBody env ts.simulationMethod i s))
    (k : Nat) (s : PState) (hs : P s) : P ((iteration env ts)^[k] s) :=
  iterate_invariant_of env ts P (fun _ => hE) hT k s hs

theorem iterate_frame (env : Env) (ts : TimeStepTetModel) (k : Nat) (s : PState) :
    ((iteration env ts)^[k] s).1 = s.1.withX ((iteration env ts)^[k] s).1.pd.x := by
  apply iterate_invariant env ts (fun t => t.1 = s.1.withX t.1.pd.x)
  · intro i t ht
    exact frame_trans ht (edgeBody_frame env i t)
  · intro i t ht
    exact frame_trans ht (tetBody_frame env _ i t)
  · rfl

theorem iterate_x_fixed (env : Env) (ts : TimeStepTetModel) (k : Nat) (s : PState) (j : Nat)
    (hj : s.1.pd.invMass j = 0) : ((iteration env ts)^[k] s).1.pd.x j = s.1.pd.x j := by
  have key := iterate_invariant env ts
    (fun t => t.1 = s.1.withX t.1.pd.x ∧ t.1.pd.x j = s.1.pd.x j) ?_ ?_ k s ⟨rfl, rfl⟩
  · exact key.2
  · intro i t ht
    have hinv : t.1.pd.invMass j = 0 := by rw [ht.1]; exact hj
    refine ⟨?_, ?_⟩
    · exact frame_trans ht.1 (edgeBody_frame env i t)
    · rw [edgeBody_x_fixed env i t j hinv]; exact ht.2
  · intro i t ht
    have hinv : t.1.pd.invMass j = 0 := by rw [ht.1]; exact hj
    refine ⟨?_, ?_⟩
    · exact frame_trans ht.1 (tetBody_frame env _ i t)
    · rw [tetBody_x_fixed env _ i t j hinv]; exact ht.2

theorem constraintProjection_frame (env : Env) (ts : TimeStepTetModel) (model : TetModel) :
    constraintProjection env ts model =
      model.withX (constraintProjection env ts model).pd.x := by
  unfold constraintProjection
  rw [constraintProjectionLog_eq_iterate]
  exact iterate_frame env ts 5 (model, [])

theorem constraintProjection_x_fixed (env : Env) (ts : TimeStepTetModel) (model : TetModel)
    (j : Nat) (hj : model.pd.invMass j = 0) :
    (constraintProjection env ts model).pd.x j = model.pd.x j := by
  unfold constraintProjection
  rw [constraintProjectionLog_eq_iterate]
  exact iterate_x_fixed env ts 5 (model, []) j hj

/-! ## The log of solver calls -/

theorem edgeBody_tags (env : Env) (i : Nat) (s : PState) :
    (edgeBody env i s).2.map Call.tag = s.2.map Call.tag ++ [Tag.distance i] := by
  simp only [edgeBody, List.map_append, List.map_cons, List.map_nil, Call.tag]

theorem tetBody_tags (env : Env) (method : Nat) (i : Nat) (s : PState) :
    (tetBody env method i s).2.map Call.tag = s.2.map Call.tag ++ tetTag method i := by
  simp only [tetBody, tetSolve, tetTag, List.map_append]
  split_ifs <;> simp [Call.tag]

theorem forLoop_edgeBody_tags (env : Env) (n : Nat) (s : PState) :
    (forLoop (edgeBody env) n s).2.map Call.tag =
      s.2.map Call.tag ++ (List.range n).map Tag.distance := by
  induction n with
  | zero => simp [forLoop]
  | succ n ih =>
    simp only [forLoop, edgeBody_tags, ih, List.range_succ, List.map_append, List.map_cons,
      List.map_nil, List.append_assoc]

theorem forLoop_tetBody_tags (env : Env) (method : Nat) (n : Nat) (s : PState) :
    (forLoop (tetBody env method) n s).2.map Call.tag =
      s.2.map Call.tag ++ (List.range n).flatMap (tetTag method) := by
  induction n with
  | zero => simp [forLoop]
  | succ n ih =>
    simp only [forLoop, tetBody_tags, ih, List.range_succ, List.flatMap_append,
      List.flatMap_singleton, List.append_assoc]

theorem iteration_tags (env : Env) (ts : TimeStepTetModel) (s : PState) :
    (iteration env ts s).2.map Call.tag =
      s.2.map Call.tag ++ passTags ts.simulationMethod s.1.numEdges s.1.numTets := by
  simp only [iteration, forLoop_tetBody_tags, passTags]
  split
  · rw [forLoop_edgeBody_tags, List.append_assoc]
  · simp

theorem iterate_tags (env : Env) (ts : TimeStepTetModel) (k : Nat) (s : PState) :
    ((iteration env ts)^[k] s).2.map Call.tag =
      s.2.map Call.tag ++
        (List.replicate k (passTags ts.simulationMethod s.1.numEdges s.1.numTets)).flatten := by
  induction k with
  | zero => simp
  | succ k ih =>
    have hf := iterate_frame env ts k s
    have he : ((iteration env ts)^[k] s).1.numEdges = s.1.numEdges :=
      (congrArg TetModel.numEdges hf).trans rfl
    have ht : ((iteration env ts)^[k] s).1.numTets = s.1.numTets :=
      (congrArg TetModel.numTets hf).trans rfl
    rw [Function.iterate_succ_apply', iteration_tags, ih, he, ht, List.replicate_succ',
      List.flatten_append, List.flatten_singleton, List.append_assoc]

theorem constraintProjectionLog_tags (env : Env) (ts : TimeStepTetModel) (model : TetModel) :
    (constraintProjectionLog env ts model).2.map Call.tag =
      (List.replicate 5 (passTags ts.simulationMethod model.numEdges model.numTets)).flatten := by
  rw [constraintProjectionLog_eq_iterate, iterate_tags]
  rfl

theorem edgeBody_of_fail (env : Env) (i : Nat) (s : PState)
    (h : ∀ c ∈ (edgeBody env i s).2, c.res env = false) : (edgeBody env i s).1 = s.1 := by
  simp only [edgeBody] at h ⊢
  have hlast := h _ (List.mem_append_right _ (List.mem_singleton_self _))
  simp only [Call.res] at hlast
  simp only [hlast]
  rfl

theorem tetBody_of_fail (env : Env) (method : Nat) (i : Nat) (s : PState)
    (h : ∀ c ∈ (tetBody env method i s).2, c.res env = false) :
    (tetBody env method i s).1 = s.1 := by
  have hres : (tetSolve env method s.1 i
      ⟨s.1.pd.x (s.1.tets.getD (4 * i) 0), s.1.pd.invMass (s.1.tets.getD (4 * i) 0),
        s.1.pd.x (s.1.tets.getD (4 * i + 1) 0), s.1.pd.invMass (s.1.tets.getD (4 * i + 1) 0),
        s.1.pd.x (s.1.tets.getD (4 * i + 2) 0), s.1.pd.invMass (s.1.tets.getD (4 * i + 2) 0),
        s.1.pd.x (s.1.tets.getD (4 * i + 3) 0),
        s.1.pd.invMass (s.1.tets.getD (4 * i + 3) 0)⟩).1.res = false := by
    simp only [tetBody] at h
    simp only [tetSolve] at h ⊢
    split_ifs at h ⊢ with h1 h2 h3
    · exact h (Call.volume i _) (by simp)
    · exact h (Call.fem i _) (by simp)
    · exact h (Call.strain i _) (by simp)
    · rfl
  simp only [tetBody, hres]
  rfl

theorem constraintProjectionLog_of_fail (env : Env) (ts : TimeStepTetModel) (model : TetModel)
    (h : ∀ c ∈ (constraintProjectionLog env ts model).2, c.res env = false) :
    (constraintProjectionLog env ts model).1 = model := by
  rw [constraintProjectionLog_eq_iterate] at h ⊢
  have key := iterate_invariant env ts
    (fun t => (∀ c ∈ t.2, c.res env = false) → t.1 = model) ?_ ?_ 5 (model, [])
    (fun _ => rfl)
  · exact key h
  · intro i t ht hall
    have hprev : ∀ c ∈ t.2, c.res env = false := by
      intro c hc
      apply hall
      simp only [edgeBody]
      exact List.mem_append_left _ hc
    rw [edgeBody_of_fail env i t hall]
    exact ht hprev
  · intro i t ht hall
    have hprev : ∀ c ∈ t.2, c.res env = false := by
      intro c hc
      apply hall
      simp only [tetBody]
      exact List.mem_append_left _ hc
    rw [tetBody_of_fail env _ i t hall]
    exact ht hprev

/-! ## Independence of the edge list -/

theorem forLoop_tetBody_setEdges (env : Env) (method : Nat) (edges : List Edge) (n : Nat)
    (s : PState) :
    forLoop (tetBody env method) n (setEdges edges s) =
      setEdges edges (forLoop (tetBody env method) n s) := by
  induction n with
  | zero => rfl
  | succ n ih =>
    simp only [forLoop, ih]
    rfl

theorem iteration_setEdges (env : Env) (ts : TimeStepTetModel)
    (hmeth : ts.simulationMethod ≠ 1) (edges : List Edge) (s : PState) :
    iteration env ts (setEdges edges s) = setEdges edges (iteration env ts s) := by
  simp only [iteration, if_neg hmeth]
  exact forLoop_tetBody_setEdges env _ edges _ s

theorem iterate_setEdges (env : Env) (ts : TimeStepTetModel)
    (hmeth : ts.simulationMethod ≠ 1) (edges : List Edge) (k : Nat) (s : PState) :
    (iteration env ts)^[k] (setEdges edges s) = setEdges edges ((iteration env ts)^[k] s) := by
  induction k with
  | zero => rfl
  | succ k ih =>
    rw [Function.iterate_succ_apply', Function.iterate_succ_apply', ih,
      iteration_setEdges env ts hmeth]

theorem constraintProjectionLog_setEdges (env : Env) (ts : TimeStepTetModel)
    (hmeth : ts.simulationMethod ≠ 1) (edges : List Edge) (model : TetModel) :
    constraintProjectionLog env ts { model with edges := edges } =
      setEdges edges (constraintProjectionLog env ts model) := by
  rw [constraintProjectionLog_eq_iterate, constraintProjectionLog_eq_iterate]
  exact iterate_setEdges env ts hmeth edges 5 (model, [])

/-! ## The phases of `step` -/

theorem clearAccelerations_pd (model : TetModel) :
    (clearAccelerations model).pd =
      { model.pd with
        a := fun j => if j < model.pd.size ∧ model.pd.mass j ≠ 0 then grav else model.pd.a j } := by
  simp only [clearAccelerations, forLoop_clearAccelerations]

theorem semiImplicitEulerStep_pd (model : TetModel) (h : ℚ) :
    (semiImplicitEulerStep model h).pd =
      { model.pd with
        lastX := fun j =>
          if j < model.pd.size ∧ model.pd.mass j ≠ 0 then model.pd.x j else model.pd.lastX j
        v := fun j =>
          if j < model.pd.size ∧ model.pd.mass j ≠ 0 then model.pd.v j + (model.pd.a j).muls h
          else model.pd.v j
        x := fun j =>
          if j < model.pd.size ∧ model.pd.mass j ≠ 0 then
            model.pd.x j + (model.pd.v j + (model.pd.a j).muls h).muls h
          else model.pd.x j } := by
  simp only [semiImplicitEulerStep, forLoop_semiImplicitEuler]

theorem step_model (env : Env) (w : World) :
    (step env w).model =
      { projected env w with
        pd := { (projected env w).pd with
          v := fun j =>
            if j < (projected env w).pd.size then
              Vec3.smul (1 / w.tm.h) ((projected env w).pd.x j - (projected env w).pd.lastX j)
            else (projected env w).pd.v j } } := by
  simp only [step, forLoop_updateVelocity, projected, integrated]

theorem projected_frame (env : Env) (w : World) :
    projected env w = (integrated w).withX (projected env w).pd.x :=
  constraintProjection_frame env w.ts (integrated w)

theorem integrated_staticPart (w : World) :
    staticPart (integrated w) = staticPart w.model := by
  simp only [integrated, staticPart, semiImplicitEulerStep, clearAccelerations,
    forLoop_semiImplicitEuler, forLoop_clearAccelerations]

theorem projected_staticPart (env : Env) (w : World) :
    staticPart (projected env w) = staticPart w.model := by
  have h := congrArg staticPart (projected_frame env w)
  exact h.trans (integrated_staticPart w)

theorem step_staticPart (env : Env) (w : World) :
    staticPart (step env w).model = staticPart w.model := by
  rw [step_model]
  exact projected_staticPart env w

theorem step_ts (env : Env) (w : World) : (step env w).ts = w.ts := rfl

theorem step_tm (env : Env) (w : World) :
    (step env w).tm = { w.tm with time := w.tm.time + w.tm.h } := rfl

theorem step_pd_x (env : Env) (w : World) :
    (step env w).model.pd.x = (projected env w).pd.x := by
  rw [step_model]

theorem step_pd_lastX (env : Env) (w : World) :
    (step env w).model.pd.lastX = (integrated w).pd.lastX := by
  rw [step_model]
  exact congrArg (fun m => m.pd.lastX) (projected_frame env w)

theorem step_pd_a (env : Env) (w : World) :
    (step env w).model.pd.a = (clearAccelerations w.model).pd.a := by
  rw [step_model]
  have h := congrArg (fun m => m.pd.a) (projected_frame env w)
  refine h.trans ?_
  simp only [integrated, TetModel.withX, semiImplicitEulerStep_pd]

theorem integrated_x_of_mass_zero (w : World) (j : Nat) (hm : w.model.pd.mass j = 0) :
    (integrated w).pd.x j = w.model.pd.x j := by
  simp only [integrated, semiImplicitEulerStep_pd, clearAccelerations_pd, hm, ne_eq,
    not_true_eq_false, and_false, if_false]

theorem step_x_fixed (env : Env) (w : World) (j : Nat) (hm : w.model.pd.mass j = 0)
    (hw : w.model.pd.invMass j = 0) : (step env w).model.pd.x j = w.model.pd.x j := by
  rw [step_pd_x]
  have hinv : (integrated w).pd.invMass = w.model.pd.invMass :=
    congrArg (fun t => t.2.2.1) (integrated_staticPart w)
  have h := constraintProjection_x_fixed env w.ts (integrated w) j (by rw [hinv]; exact hw)
  exact h.trans (integrated_x_of_mass_zero w j hm)

theorem stepN_staticPart (env : Env) (n : Nat) (w : World) :
    staticPart (stepN env n w).model = staticPart w.model := by
  induction n with
  | zero => rfl
  | succ n ih => exact (step_staticPart env _).trans ih

theorem stepN_x_fixed (env : Env) (n : Nat) (w : World) (j : Nat)
    (hm : w.model.pd.mass j = 0) (hw : w.model.pd.invMass j = 0) :
    (stepN env n w).model.pd.x j = w.model.pd.x j := by
  induction n with
  | zero => rfl
  | succ n ih =>
    have hs := stepN_staticPart env n w
    have hmass : (stepN env n w).model.pd.mass = w.model.pd.mass :=
      congrArg (fun t => t.2.1) hs
    have hinv : (stepN env n w).model.pd.invMass = w.model.pd.invMass :=
      congrArg (fun t => t.2.2.1) hs
    have h := step_x_fixed env (stepN env n w) j (by rw [hmass]; exact hm) (by rw [hinv]; exact hw)
    exact h.trans ih

theorem constraintProjection_no_constraints (env : Env) (ts : TimeStepTetModel)
    (model : TetModel) (he : model.edges = []) (ht : model.tets = []) :
    constraintProjection env ts model = model := by
  have hit : ∀ s : PState, s.1.edges = [] → s.1.tets = [] → iteration env ts s = s := by
    intro s h1 h2
    simp [iteration, TetModel.numTets, TetModel.numEdges, h1, h2, forLoop]
  unfold constraintProjection
  rw [constraintProjectionLog_eq_iterate]
  simp only [Function.iterate_succ, Function.iterate_zero, Function.comp, id,
    hit (model, []) he ht]

theorem tetBody_no_distance (env : Env) (method : Nat) (i : Nat) (s : PState)
    (h : ∀ c ∈ s.2, c.isDistance = false) :
    ∀ c ∈ (tetBody env method i s).2, c.isDistance = false := by
  intro c hc
  simp only [tetBody, tetSolve] at hc
  rcases List.mem_append.1 hc with hc | hc
  · exact h c hc
  · split_ifs at hc <;> simp at hc <;> subst hc <;> rfl

theorem constraintProjectionLog_no_distance (env : Env) (ts : TimeStepTetModel)
    (model : TetModel) (hmeth : ts.simulationMethod ≠ 1) :
    ∀ c ∈ (constraintProjectionLog env ts model).2, c.isDistance = false := by
  rw [constraintProjectionLog_eq_iterate]
  exact iterate_invariant_of env ts (fun t => ∀ c ∈ t.2, c.isDistance = false)
    (fun h1 => absurd h1 hmeth) (fun i t ht => tetBody_no_distance env _ i t ht) 5 (model, [])
    (by simp)

theorem flatMap_tetTag_one (l : List Nat) : l.flatMap (tetTag 1) = l.map Tag.volume := by
  induction l with
  | nil => rfl
  | cons a l ih => simp [List.flatMap_cons, ih, tetTag]

theorem passTags_one (nEdges nTets : Nat) :
    passTags 1 nEdges nTets =
      (List.range nEdges).map Tag.distance ++ (List.range nTets).map Tag.volume := by
  simp only [passTags, if_true, flatMap_tetTag_one]

/-! ## A method outside 1, 2, 3 -/

theorem tetBody_of_no_method (env : Env) (method : Nat) (h1 : method ≠ 1) (h2 : method ≠ 2)
    (h3 : method ≠ 3) (i : Nat) (s : PState) : tetBody env method i s = s := by
  simp [tetBody, tetSolve, h1, h2, h3]

theorem iteration_of_no_method (env : Env) (ts : TimeStepTetModel)
    (h1 : ts.simulationMethod ≠ 1) (h2 : ts.simulationMethod ≠ 2)
    (h3 : ts.simulationMethod ≠ 3) (s : PState) : iteration env ts s = s := by
  simp only [iteration, if_neg h1]
  exact forLoop_invariant (fun t => t = s) _
    (fun i t ht => by rw [tetBody_of_no_method env _ h1 h2 h3]; exact ht) _ s rfl

theorem constraintProjectionLog_of_no_method (env : Env) (ts : TimeStepTetModel)
    (h1 : ts.simulationMethod ≠ 1) (h2 : ts.simulationMethod ≠ 2)
    (h3 : ts.simulationMethod ≠ 3) (model : TetModel) :
    constraintProjectionLog env ts model = (model, []) := by
  rw [constraintProjectionLog_eq_iterate]
  simp only [Function.iterate_succ, Function.iterate_zero, Function.comp, id,
    iteration_of_no_method env ts h1 h2 h3]

/-! ## Fixed particles and free fall -/

theorem integrated_lastX_of_mass_zero (w : World) (j : Nat) (hm : w.model.pd.mass j = 0) :
    (integrated w).pd.lastX j = w.model.pd.lastX j := by
  simp only [integrated, semiImplicitEulerStep_pd, clearAccelerations_pd, hm, ne_eq,
    not_true_eq_false, and_false, if_false]

theorem clearAccelerations_a_of_mass_zero (model : TetModel) (j : Nat)
    (hm : model.pd.mass j = 0) : (clearAccelerations model).pd.a j = model.pd.a j := by
  simp only [clearAccelerations_pd, hm, ne_eq, not_true_eq_false, and_false, if_false]

theorem step_lastX_fixed (env : Env) (w : World) (j : Nat) (hm : w.model.pd.mass j = 0) :
    (step env w).model.pd.lastX j = w.model.pd.lastX j := by
  rw [step_pd_lastX]
  exact integrated_lastX_of_mass_zero w j hm

theorem step_a_fixed (env : Env) (w : World) (j : Nat) (hm : w.model.pd.mass j = 0) :
    (step env w).model.pd.a j = w.model.pd.a j := by
  rw [step_pd_a]
  exact clearAccelerations_a_of_mass_zero w.model j hm

theorem stepN_lastX_a_fixed (env : Env) (n : Nat) (w : World) (j : Nat)
    (hm : w.model.pd.mass j = 0) :
    (stepN env n w).model.pd.lastX j = w.model.pd.lastX j ∧
      (stepN env n w).model.pd.a j = w.model.pd.a j := by
  induction n with
  | zero => exact ⟨rfl, rfl⟩
  | succ n ih =>
    have hmass : (stepN env n w).model.pd.mass = w.model.pd.mass :=
      congrArg (fun t => t.2.1) (stepN_staticPart env n w)
    have hm2 : (stepN env n w).model.pd.mass j = 0 := by rw [hmass]; exact hm
    exact ⟨(step_lastX_fixed env _ j hm2).trans ih.1, (step_a_fixed env _ j hm2).trans ih.2⟩

theorem forLoop_eq_foldl {σ : Type} (body : Nat → σ → σ) (n : Nat) (s : σ) :
    forLoop body n s = (List.range n).foldl (fun st i => body i st) s := by
  induction n with
  | zero => rfl
  | succ n ih =>
    rw [List.range_succ, List.foldl_append, ← ih]
    rfl

theorem iteration_eq_gaussSeidelPass (env : Env) (ts : TimeStepTetModel) (s : PState) :
    iteration env ts s = gaussSeidelPass env ts s := by
  simp only [iteration, gaussSeidelPass, forLoop_eq_foldl]

theorem constraintProjectionLog_eq_fivePasses (env : Env) (ts : TimeStepTetModel)
    (model : TetModel) : constraintProjectionLog env ts model = fivePasses env ts model := by
  rw [constraintProjectionLog_eq_iterate]
  simp only [Function.iterate_succ, Function.iterate_zero, Function.comp, id,
    iteration_eq_gaussSeidelPass, fivePasses]

theorem flatMap_tetTag_two (l : List Nat) : l.flatMap (tetTag 2) = l.map Tag.fem := by
  induction l with
  | nil => rfl
  | cons a l ih => simp [List.flatMap_cons, ih, tetTag]

theorem flatMap_tetTag_three (l : List Nat) : l.flatMap (tetTag 3) = l.map Tag.strain := by
  induction l with
  | nil => rfl
  | cons a l ih => simp [List.flatMap_cons, ih, tetTag]

theorem passTags_two (nEdges nTets : Nat) :
    passTags 2 nEdges nTets = (List.range nTets).map Tag.fem := by
  simp [passTags, flatMap_tetTag_two]

theorem passTags_three (nEdges nTets : Nat) :
    passTags 3 nEdges nTets = (List.range nTets).map Tag.strain := by
  simp [passTags, flatMap_tetTag_three]

theorem constraintProjectionLog_length (env : Env) (ts : TimeStepTetModel) (model : TetModel) :
    (constraintProjectionLog env ts model).2.length =
      5 * (passTags ts.simulationMethod model.numEdges model.numTets).length := by
  have h := congrArg List.length (constraintProjectionLog_tags env ts model)
  rw [List.length_map] at h
  rw [h]
  simp [List.replicate]
  ring

/-! ## Particles that no constraint refers to -/

theorem forLoop_invariant_lt {σ : Type} (P : σ → Prop) (body : Nat → σ → σ) (n : Nat)
    (hbody : ∀ i, i < n → ∀ s, P s → P (body i s)) (s : σ) (hs : P s) :
    P (forLoop body n s) := by
  induction n with
  | zero => exact hs
  | succ n ih =>
    exact hbody n (Nat.lt_succ_self n) _ (ih (fun i hi => hbody i (Nat.lt_succ_of_lt hi)))

theorem edgeBody_x_of_not_endpoint (env : Env) (i : Nat) (s : PState) (j : Nat)
    (h0 : (s.1.edges.getD i default).v0 ≠ j) (h1 : (s.1.edges.getD i default).v1 ≠ j) :
    (edgeBody env i s).1.pd.x j = s.1.pd.x j := by
  simp only [edgeBody]
  split
  · rw [applyCorr_x_of_guard _ _ _ _ _ (fun _ => h1),
      applyCorr_x_of_guard _ _ _ _ _ (fun _ => h0)]
  · rfl

theorem tetBody_x_of_not_vertex (env : Env) (method : Nat) (i : Nat) (s : PState) (j : Nat)
    (h : ∀ k, k < 4 → s.1.tets.getD (4 * i + k) 0 ≠ j) :
    (tetBody env method i s).1.pd.x j = s.1.pd.x j := by
  have h0 : s.1.tets.getD (4 * i) 0 ≠ j := h 0 (by omega)
  simp only [tetBody]
  split
  · rw [applyCorr_x_of_guard _ _ _ _ _ (fun _ => h 3 (by omega)),
      applyCorr_x_of_guard _ _ _ _ _ (fun _ => h 2 (by omega)),
      applyCorr_x_of_guard _ _ _ _ _ (fun _ => h 1 (by omega)),
      applyCorr_x_of_guard _ _ _ _ _ (fun _ => h0)]
  · rfl

theorem iteration_x_unconstrained (env : Env) (ts : TimeStepTetModel) (model : TetModel)
    (j : Nat)
    (hE : ts.simulationMethod = 1 → ∀ e ∈ model.edges, e.v0 ≠ j ∧ e.v1 ≠ j)
    (hT : ∀ i, i < model.numTets → ∀ k, k < 4 → model.tets.getD (4 * i + k) 0 ≠ j)
    (s : PState) (hs : s.1 = model.withX s.1.pd.x ∧ s.1.pd.x j = model.pd.x j) :
    (iteration env ts s).1 = model.withX (iteration env ts s).1.pd.x ∧
      (iteration env ts s).1.pd.x j = model.pd.x j := by
  have hnE : s.1.numEdges = model.numEdges := (congrArg TetModel.numEdges hs.1).trans rfl
  have hnT : s.1.numTets = model.numTets := (congrArg TetModel.numTets hs.1).trans rfl
  unfold iteration
  simp only [hnE, hnT]
  refine forLoop_invariant_lt
    (fun t : PState => t.1 = model.withX t.1.pd.x ∧ t.1.pd.x j = model.pd.x j) _ _ ?_ _ ?_
  · intro i hi t ht
    have htets : t.1.tets = model.tets := (congrArg TetModel.tets ht.1).trans rfl
    refine ⟨frame_trans ht.1 (tetBody_frame env _ i t), ?_⟩
    rw [tetBody_x_of_not_vertex env _ i t j (fun k hk => by rw [htets]; exact hT i hi k hk)]
    exact ht.2
  · split
    · next hmeth =>
      refine forLoop_invariant_lt
        (fun t : PState => t.1 = model.withX t.1.pd.x ∧ t.1.pd.x j = model.pd.x j) _ _ ?_ _ ?_
      · intro i hi t ht
        have hedges : t.1.edges = model.edges := (congrArg TetModel.edges ht.1).trans rfl
        have hmem : model.edges.getD i default ∈ model.edges := by
          rw [List.getD_eq_getElem _ _ hi]
          exact List.getElem_mem _
        have hne := hE hmeth _ hmem
        refine ⟨frame_trans ht.1 (edgeBody_frame env i t), ?_⟩
        rw [edgeBody_x_of_not_endpoint env i t j (by rw [hedges]; exact hne.1)
          (by rw [hedges]; exact hne.2)]
        exact ht.2
      · exact hs
    · exact hs

theorem constraintProjection_x_unconstrained (env : Env) (ts : TimeStepTetModel)
    (model : TetModel) (j : Nat)
    (hE : ts.simulationMethod = 1 → ∀ e ∈ model.edges, e.v0 ≠ j ∧ e.v1 ≠ j)
    (hT : ∀ i, i < model.numTets → ∀ k, k < 4 → model.tets.getD (4 * i + k) 0 ≠ j) :
    (constraintProjection env ts model).pd.x j = model.pd.x j := by
  unfold constraintProjection
  rw [constraintProjectionLog_eq_iterate]
  have key : ∀ k : Nat,
      ((iteration env ts)^[k] (model, [])).1 =
          model.withX ((iteration env ts)^[k] (model, [])).1.pd.x ∧
        ((iteration env ts)^[k] (model, [])).1.pd.x j = model.pd.x j := by
    intro k
    induction k with
    | zero => exact ⟨rfl, rfl⟩
    | succ k ih =>
      rw [Function.iterate_succ_apply']
      exact iteration_x_unconstrained env ts model j hE hT _ ih
  exact (key 5).2

/-! ## What each method reads -/

theorem forLoop_rel {σ : Type} (R : σ → σ → Prop) (body : Nat → σ → σ)
    (hbody : ∀ i s t, R s t → R (body i s) (body i t)) (n : Nat) (s t : σ) (h : R s t) :
    R (forLoop body n s) (forLoop body n t) := by
  induction n with
  | zero => exact h
  | succ n ih => exact hbody n _ _ ih

theorem tetSolve_congr (env : Env) (method : Nat) (a b : TetModel) (i : Nat) (p : TetArgs)
    (h : sameInputs method a b) : tetSolve env method a i p = tetSolve env method b i p := by
  obtain ⟨_, _, _, hk, h1, h2, h3⟩ := h
  simp only [tetSolve]
  split_ifs with m1 m2 m3
  · rw [h1 m1 i, hk]
  · rw [((h2 m2).1 i).1, ((h2 m2).1 i).2, (h2 m2).2, hk]
  · rw [(h3 m3).1 i, (h3 m3).2.1, (h3 m3).2.2, hk]
  · rfl

theorem edgeBody_rel (env : Env) (method : Nat) (i : Nat) (s t : PState)
    (h : sameInputs method s.1 t.1 ∧ s.2 = t.2) :
    sameInputs method (edgeBody env i s).1 (edgeBody env i t).1 ∧
      (edgeBody env i s).2 = (edgeBody env i t).2 := by
  obtain ⟨⟨hpd, he, ht, hk, h1, h2, h3⟩, hlog⟩ := h
  have hpd2 : (edgeBody env i s).1.pd = (edgeBody env i t).1.pd := by
    simp only [edgeBody, hpd, he, hk]
  have hlog2 : (edgeBody env i s).2 = (edgeBody env i t).2 := by
    simp only [edgeBody, hpd, he, hk, hlog]
  exact ⟨⟨hpd2, he, ht, hk, h1, h2, h3⟩, hlog2⟩

theorem tetBody_rel (env : Env) (method : Nat) (i : Nat) (s t : PState)
    (h : sameInputs method s.1 t.1 ∧ s.2 = t.2) :
    sameInputs method (tetBody env method i s).1 (tetBody env method i t).1 ∧
      (tetBody env method i s).2 = (tetBody env method i t).2 := by
  have hsolve := fun p => tetSolve_congr env method s.1 t.1 i p h.1
  obtain ⟨⟨hpd, he, ht, hk, h1, h2, h3⟩, hlog⟩ := h
  have hpd2 : (tetBody env method i s).1.pd = (tetBody env method i t).1.pd := by
    simp only [tetBody, hsolve, hpd, ht]
  have hlog2 : (tetBody env method i s).2 = (tetBody env method i t).2 := by
    simp only [tetBody, hsolve, hpd, ht, hlog]
  exact ⟨⟨hpd2, he, ht, hk, h1, h2, h3⟩, hlog2⟩

theorem iteration_rel (env : Env) (ts : TimeStepTetModel) (s t : PState)
    (h : sameInputs ts.simulationMethod s.1 t.1 ∧ s.2 = t.2) :
    sameInputs ts.simulationMethod (iteration env ts s).1 (iteration env ts t).1 ∧
      (iteration env ts s).2 = (iteration env ts t).2 := by
  have hnE : s.1.numEdges = t.1.numEdges := congrArg List.length h.1.2.1
  have hnT : s.1.numTets = t.1.numTets := congrArg (fun l => List.length l / 4) h.1.2.2.1
  simp only [iteration, hnE, hnT]
  refine forLoop_rel
    (fun a b : PState => sameInputs ts.simulationMethod a.1 b.1 ∧ a.2 = b.2) _
    (fun i a b hab => tetBody_rel env _ i a b hab) _ _ _ ?_
  split
  · exact forLoop_rel
      (fun a b : PState => sameInputs ts.simulationMethod a.1 b.1 ∧ a.2 = b.2) _
      (fun i a b hab => edgeBody_rel env _ i a b hab) _ _ _ h
  · exact h

theorem constraintProjectionLog_rel (env : Env) (ts : TimeStepTetModel) (a b : TetModel)
    (h : sameInputs ts.simulationMethod a b) :
    (constraintProjectionLog env ts a).1.pd = (constraintProjectionLog env ts b).1.pd ∧
      (constraintProjectionLog env ts a).2 = (constraintProjectionLog env ts b).2 := by
  rw [constraintProjectionLog_eq_iterate, constraintProjectionLog_eq_iterate]
  have key : ∀ k : Nat,
      sameInputs ts.simulationMethod ((iteration env ts)^[k] (a, [])).1
          ((iteration env ts)^[k] (b, [])).1 ∧
        ((iteration env ts)^[k] (a, [])).2 = ((iteration env ts)^[k] (b, [])).2 := by
    intro k
    induction k with
    | zero => exact ⟨h, rfl⟩
    | succ k ih =>
      rw [Function.iterate_succ_apply', Function.iterate_succ_apply']
      exact iteration_rel env ts _ _ ih
  exact ⟨(key 5).1.1, (key 5).2⟩

theorem getD_of_map_eq {β : Type} (f : TetConstraint → β) (l l2 : List TetConstraint)
    (h : l2.map f = l.map f) (i : Nat) : f (l2.getD i default) = f (l.getD i default) := by
  rw [← List.getD_map l2 default f, ← List.getD_map l default f, h]

/-! ## Rounded arithmetic: loops -/

theorem forLoop_clearAccelerationsR (ar : Arith) (n : Nat) (pd : ParticleData) :
    forLoop (clearAccelerationsBodyR ar) n pd =
      { pd with a := fun j => if j < n ∧ pd.mass j ≠ 0 then gravR ar else pd.a j } := by
  induction n with
  | zero => simp [forLoop]
  | succ n ih =>
    have key : ∀ j, j ≠ n → ((j < n + 1) ↔ (j < n)) := fun j hj => by omega
    by_cases hm : pd.mass n = 0
    · simp only [forLoop, ih, clearAccelerationsBodyR, hm, ne_eq, not_true_eq_false, if_false]
      congr 1
      funext j
      by_cases hj : j = n
      · subst hj; simp [hm]
      · simp [key j hj]
    · simp only [forLoop, ih, clearAccelerationsBodyR, hm, ne_eq, not_false_eq_true, if_true]
      congr 1
      funext j
      by_cases hj : j = n
      · subst hj; simp [hm, setAt]
      · simp [key j hj, hj, setAt]

theorem forLoop_semiImplicitEulerR (ar : Arith) (h : ℚ) (n : Nat) (pd : ParticleData) :
    forLoop (semiImplicitEulerBodyR ar h) n pd =
      { pd with
        lastX := fun j => if j < n ∧ pd.mass j ≠ 0 then pd.x j else pd.lastX j
        v := fun j =>
          if j < n ∧ pd.mass j ≠ 0 then
            Vec3.addR ar.rnd (pd.v j) (Vec3.mulsR ar.rnd (pd.a j) h)
          else pd.v j
        x := fun j =>
          if j < n ∧ pd.mass j ≠ 0 then
            Vec3.addR ar.rnd (pd.x j)
              (Vec3.mulsR ar.rnd (Vec3.addR ar.rnd (pd.v j) (Vec3.mulsR ar.rnd (pd.a j) h)) h)
          else pd.x j } := by
  induction n with
  | zero => simp [forLoop]
  | succ n ih =>
    have key : ∀ j, j ≠ n → ((j < n + 1) ↔ (j < n)) := fun j hj => by omega
    by_cases hm : pd.mass n = 0
    · simp only [forLoop, ih, semiImplicitEulerBodyR, hm, ne_eq, not_true_eq_false, if_false]
      congr 1 <;> funext j <;> by_cases hj : j = n
      all_goals first
        | (subst hj; simp [hm])
        | simp [key j hj]
    · simp only [forLoop, ih, semiImplicitEulerBodyR, hm, ne_eq, not_false_eq_true, if_true]
      congr 1 <;> funext j <;> by_cases hj : j = n
      all_goals first
        | (subst hj; simp [hm, setAt])
        | simp [key j hj, hj, setAt]

theorem forLoop_updateVelocityR (ar : Arith) (h : ℚ) (n : Nat) (pd : ParticleData) :
    forLoop (updateVelocityBodyR ar h) n pd =
      { pd with
        v := fun j =>
          if j < n then
            Vec3.smulR ar.rnd (ar.rnd (1 / h)) (Vec3.subR ar.rnd (pd.x j) (pd.lastX j))
          else pd.v j } := by
  induction n with
  | zero => simp [forLoop]
  | succ n ih =>
    simp only [forLoop, ih, updateVelocityBodyR]
    congr 1
    funext j
    simp only [setAt]
    by_cases hj : j = n
    · subst hj; simp
    · have : (j < n + 1) ↔ (j < n) := by omega
      simp [hj, this]

theorem projectionLoopR_eq_iterate (ar : Arith) (env : Env) (ts : TimeStepTetModel) :
    ∀ (d k : Nat) (s : PState), maxIter - k = d →
      projectionLoopR ar env ts k s = (iterationR ar env ts)^[d] s := by
  intro d
  induction d with
  | zero =>
    intro k s hk
    rw [projectionLoopR, if_neg (by omega)]
    rfl
  | succ d ih =>
    intro k s hk
    rw [projectionLoopR, if_pos (by omega), ih (k + 1) _ (by omega)]
    rfl

theorem constraintProjectionLogR_eq_iterate (ar : Arith) (env : Env) (ts : TimeStepTetModel)
    (model : TetModel) :
    constraintProjectionLogR ar env ts model = (iterationR ar env ts)^[5] (model, []) :=
  projectionLoopR_eq_iterate ar env ts 5 0 (model, []) rfl

theorem iterationR_invariant (ar : Arith) (env : Env) (ts : TimeStepTetModel)
    (P : PState → Prop) (hE : ∀ i s, P s → P (edgeBodyR ar env i s))
    (hT : ∀ i s, P s → P (tetBodyR ar env ts.simulationMethod i s))
    (s : PState) (hs : P s) : P (iterationR ar env ts s) := by
  unfold iterationR
  apply forLoop_invariant P _ hT
  split
  · exact forLoop_invariant P _ hE _ _ hs
  · exact hs

theorem iterateR_invariant (ar : Arith) (env : Env) (ts : TimeStepTetModel)
    (P : PState → Prop) (hE : ∀ i s, P s → P (edgeBodyR ar env i s))
    (hT : ∀ i s, P s → P (tetBodyR ar env ts.simulationMethod i s))
    (k : Nat) (s : PState) (hs : P s) : P ((iterationR ar env ts)^[k] s) := by
  induction k with
  | zero => exact hs
  | succ k ih =>
    rw [Function.iterate_succ_apply']
    exact iterationR_invariant ar env ts P hE hT _ ih

theorem constraintProjectionR_no_constraints (ar : Arith) (env : Env) (ts : TimeStepTetModel)
    (model : TetModel) (he : model.edges = []) (ht : model.tets = []) :
    constraintProjectionR ar env ts model = model := by
  have hit : ∀ s : PState, s.1.edges = [] → s.1.tets = [] → iterationR ar env ts s = s := by
    intro s h1 h2
    simp [iterationR, TetModel.numTets, TetModel.numEdges, h1, h2, forLoop]
  unfold constraintProjectionR
  rw [constraintProjectionLogR_eq_iterate]
  simp only [Function.iterate_succ, Function.iterate_zero, Function.comp, id,
    hit (model, []) he ht]

/-! ## Rounded arithmetic: the exact instance -/

theorem iterationR_exact (env : Env) (ts : TimeStepTetModel) :
    iterationR exactArith env ts = iteration env ts := rfl

theorem constraintProjectionR_exact (env : Env) (ts : TimeStepTetModel) (model : TetModel) :
    constraintProjectionR exactArith env ts model = constraintProjection env ts model := by
  unfold constraintProjectionR constraintProjection
  rw [constraintProjectionLogR_eq_iterate, constraintProjectionLog_eq_iterate, iterationR_exact]

theorem stepR_exact (env : Env) (w : World) : stepR exactArith env w = step env w := by
  unfold stepR step
  simp only [constraintProjectionR_exact]
  rfl

/-! ## Rounded arithmetic: the phases of `stepR` -/

theorem applyCorrR_size (ar : Arith) (pd : ParticleData) (i : Nat) (w : ℚ) (c : Vec3) :
    (pd.applyCorrR ar i w c).size = pd.size := by
  unfold ParticleData.applyCorrR ParticleData.addPositionR
  split <;> rfl

theorem edgeBodyR_size (ar : Arith) (env : Env) (i : Nat) (s : PState) :
    (edgeBodyR ar env i s).1.pd.size = s.1.pd.size := by
  simp only [edgeBodyR]
  split
  · rw [applyCorrR_size, applyCorrR_size]
  · rfl

theorem tetBodyR_size (ar : Arith) (env : Env) (method : Nat) (i : Nat) (s : PState) :
    (tetBodyR ar env method i s).1.pd.size = s.1.pd.size := by
  simp only [tetBodyR]
  split
  · rw [applyCorrR_size, applyCorrR_size, applyCorrR_size, applyCorrR_size]
  · rfl

theorem constraintProjectionR_size (ar : Arith) (env : Env) (ts : TimeStepTetModel)
    (model : TetModel) : (constraintProjectionR ar env ts model).pd.size = model.pd.size := by
  unfold constraintProjectionR
  rw [constraintProjectionLogR_eq_iterate]
  exact iterateR_invariant ar env ts (fun t => t.1.pd.size = model.pd.size)
    (fun i t ht => (edgeBodyR_size ar env i t).trans ht)
    (fun i t ht => (tetBodyR_size ar env _ i t).trans ht) 5 (model, []) rfl

theorem integratedR_size (ar : Arith) (w : World) :
    (integratedR ar w).pd.size = w.model.pd.size := by
  simp only [integratedR, semiImplicitEulerStepR, clearAccelerationsR,
    forLoop_semiImplicitEulerR, forLoop_clearAccelerationsR]

theorem stepR_model (ar : Arith) (env : Env) (w : World) :
    (stepR ar env w).model =
      { projectedR ar env w with
        pd := { (projectedR ar env w).pd with
          v := fun j =>
            if j < (projectedR ar env w).pd.size then
              Vec3.smulR ar.rnd (ar.rnd (1 / w.tm.h))
                (Vec3.subR ar.rnd ((projectedR ar env w).pd.x j)
                  ((projectedR ar env w).pd.lastX j))
            else (projectedR ar env w).pd.v j } } := by
  simp only [stepR, forLoop_updateVelocityR, projectedR, integratedR]

theorem stepR_pd_v (ar : Arith) (env : Env) (w : World) (j : Nat) (hj : j < w.model.pd.size) :
    (stepR ar env w).model.pd.v j =
      Vec3.smulR ar.rnd (ar.rnd (1 / w.tm.h))
        (Vec3.subR ar.rnd ((stepR ar env w).model.pd.x j) ((stepR ar env w).model.pd.lastX j)) := by
  have hs : (projectedR ar env w).pd.size = w.model.pd.size :=
    (constraintProjectionR_size ar env w.ts (integratedR ar w)).trans (integratedR_size ar w)
  rw [stepR_model]
  simp only [hs, hj, if_true]

theorem integratedR_of_static (ar : Arith) (w : World) (j : Nat)
    (hm : w.model.pd.mass j = 0) :
    (integratedR ar w).pd.lastX j = w.model.pd.lastX j ∧
      (integratedR ar w).pd.x j = w.model.pd.x j := by
  simp only [integratedR, semiImplicitEulerStepR, clearAccelerationsR,
    forLoop_semiImplicitEulerR, forLoop_clearAccelerationsR, hm, ne_eq, not_true_eq_false,
    and_false, if_false, and_self]

theorem stepR_of_projection_idle (ar : Arith) (env : Env) (w : World) (j : Nat)
    (hidle : projectedR ar env w = integratedR ar w) (hj : j < w.model.pd.size) :
    (stepR ar env w).model.pd.a j = (integratedR ar w).pd.a j ∧
      (stepR ar env w).model.pd.lastX j = (integratedR ar w).pd.lastX j ∧
      (stepR ar env w).model.pd.x j = (integratedR ar w).pd.x j ∧
      (stepR ar env w).model.pd.v j =
        Vec3.smulR ar.rnd (ar.rnd (1 / w.tm.h))
          (Vec3.subR ar.rnd ((integratedR ar w).pd.x j) ((integratedR ar w).pd.lastX j)) := by
  have hv := stepR_pd_v ar env w j hj
  rw [stepR_model] at hv ⊢
  rw [hidle] at hv ⊢
  exact ⟨rfl, rfl, rfl, hv⟩

/-! ## Rounded arithmetic: fixed particles -/

theorem roundToGrid_eq (k : ℤ) (q : ℚ) (n : ℤ) (hnear : |q - n * 2 ^ k| < 2 ^ k / 2) :
    roundToGrid k q = n * 2 ^ k := by
  have hk : (0 : ℚ) < 2 ^ k := zpow_pos (by norm_num) k
  have hs : |q / 2 ^ k - n| < 1 / 2 := by
    have h1 : q / 2 ^ k - n = (q - n * 2 ^ k) / 2 ^ k := by field_simp; ring
    rw [h1, abs_div, abs_of_pos hk, div_lt_iff₀ hk]
    calc |q - n * 2 ^ k| < 2 ^ k / 2 := hnear
      _ = 1 / 2 * 2 ^ k := by ring
  have hf1 := Int.floor_le (q / 2 ^ k)
  have hf2 := Int.lt_floor_add_one (q / 2 ^ k)
  rw [abs_lt] at hs
  unfold roundToGrid
  simp only
  congr 1
  split_ifs with h1 h2 h3
  · have b1 : ((⌊q / 2 ^ k⌋ : ℤ) : ℚ) - n < 1 := by linarith
    have b2 : (n : ℚ) - ⌊q / 2 ^ k⌋ < 1 := by linarith
    have a1 : ⌊q / 2 ^ k⌋ - n < 1 := by exact_mod_cast b1
    have a2 : n - ⌊q / 2 ^ k⌋ < 1 := by exact_mod_cast b2
    have e : ⌊q / 2 ^ k⌋ = n := by omega
    rw [e]
  · have b1 : ((⌊q / 2 ^ k⌋ : ℤ) : ℚ) + 1 - n < 1 := by linarith
    have b2 : (n : ℚ) - (⌊q / 2 ^ k⌋ + 1) < 1 := by linarith
    have a1 : ⌊q / 2 ^ k⌋ + 1 - n < 1 := by exact_mod_cast b1
    have a2 : n - (⌊q / 2 ^ k⌋ + 1) < 1 := by exact_mod_cast b2
    have e : ⌊q / 2 ^ k⌋ + 1 = n := by omega
    rw [← e]
  · exfalso
    have hr : q / 2 ^ k - ⌊q / 2 ^ k⌋ = 1 / 2 := le_antisymm (not_lt.1 h2) (not_lt.1 h1)
    have b1 : ((⌊q / 2 ^ k⌋ : ℤ) : ℚ) - n < 0 := by linarith
    have b2 : (n : ℚ) - ⌊q / 2 ^ k⌋ < 1 := by linarith
    have a1 : ⌊q / 2 ^ k⌋ - n < 0 := by exact_mod_cast b1
    have a2 : n - ⌊q / 2 ^ k⌋ < 1 := by exact_mod_cast b2
    omega
  · exfalso
    have hr : q / 2 ^ k - ⌊q / 2 ^ k⌋ = 1 / 2 := le_antisymm (not_lt.1 h2) (not_lt.1 h1)
    have b1 : ((⌊q / 2 ^ k⌋ : ℤ) : ℚ) - n < 0 := by linarith
    have b2 : (n : ℚ) - ⌊q / 2 ^ k⌋ < 1 := by linarith
    have a1 : ⌊q / 2 ^ k⌋ - n < 0 := by exact_mod_cast b1
    have a2 : n - ⌊q / 2 ^ k⌋ < 1 := by exact_mod_cast b2
    omega

theorem roundF32_eq (q r : ℚ) (k n : ℤ) (hlo : 2 ^ 23 * 2 ^ k ≤ |q|)
    (hhi : |q| < 2 ^ 24 * 2 ^ k) (hr : r = n * 2 ^ k) (hnear : |q - r| < 2 ^ k / 2) :
    roundF32 q = r := by
  have hk : (0 : ℚ) < 2 ^ k := zpow_pos (by norm_num) k
  have hq : 0 < |q| := lt_of_lt_of_le (by positivity) hlo
  have hq0 : q ≠ 0 := abs_pos.1 hq
  have hlog : Int.log 2 |q| = k + 23 := by
    apply le_antisymm
    · have h1 : |q| < ((2 : ℕ) : ℚ) ^ (k + 24) := by
        rw [zpow_add₀ (by norm_num)]
        calc |q| < 2 ^ 24 * 2 ^ k := hhi
          _ = _ := by push_cast; norm_num; ring
      have := (Int.lt_zpow_iff_log_lt (by norm_num) hq).1 h1
      omega
    · have h1 : ((2 : ℕ) : ℚ) ^ (k + 23) ≤ |q| := by
        rw [zpow_add₀ (by norm_num)]
        calc _ = 2 ^ 23 * 2 ^ k := by push_cast; norm_num; ring
          _ ≤ |q| := hlo
      exact (Int.zpow_le_iff_le_log (by norm_num) hq).1 h1
  unfold roundF32
  rw [if_neg hq0, hlog, add_sub_cancel_right, hr]
  exact roundToGrid_eq k q n (hr ▸ hnear)

theorem roundF32_zero : roundF32 0 = 0 := by
  simp [roundF32]

theorem roundF32_seventh : roundF32 (1 / 7) = 9586981 / 67108864 :=
  roundF32_eq _ _ (-26) 9586981 (by norm_num [le_abs]) (by norm_num [abs_lt]) (by norm_num)
    (by norm_num [abs_lt])

theorem roundF32_twentyone : roundF32 21 = 21 :=
  roundF32_eq _ _ (-19) 11010048 (by norm_num [le_abs]) (by norm_num [abs_lt]) (by norm_num)
    (by norm_num [abs_lt])

theorem roundF32_product : roundF32 (201326601 / 67108864) = 12582913 / 4194304 :=
  roundF32_eq _ _ (-22) 12582913 (by norm_num [le_abs]) (by norm_num [abs_lt]) (by norm_num)
    (by norm_num [abs_lt])

theorem roundF32_three : roundF32 3 = 3 :=
  roundF32_eq _ _ (-22) 12582912 (by norm_num [le_abs]) (by norm_num [abs_lt]) (by norm_num)
    (by norm_num [abs_lt])

theorem roundF32_128 : roundF32 128 = 128 :=
  roundF32_eq _ _ (-16) 8388608 (by norm_num [le_abs]) (by norm_num [abs_lt]) (by norm_num)
    (by norm_num [abs_lt])

/-! ## The properties of the time step -/

/-- C1, as stated, fails: a particle whose inverse mass is 0 but whose stored mass is
1 is moved by one call of `step` (gravity is integrated, the integrator looking at the
mass): it leaves the origin for (0, -9.81, 0). -/
theorem invMass_zero_alone_does_not_fix :
    inconsistentWorld.model.pd.invMass 0 = 0 ∧
      (stepN demoEnv 1 inconsistentWorld).model.pd.x 0 = ⟨0, -981 / 100, 0⟩ ∧
      (stepN demoEnv 1 inconsistentWorld).model.pd.x 0 ≠ inconsistentWorld.model.pd.x 0 := by
  have hx : (stepN demoEnv 1 inconsistentWorld).model.pd.x 0 = ⟨0, -981 / 100, 0⟩ := by
    show (step demoEnv inconsistentWorld).model.pd.x 0 = _
    rw [step_pd_x, projected, constraintProjection_no_constraints _ _ _ rfl rfl]
    simp [integrated, semiImplicitEulerStep_pd, clearAccelerations_pd, inconsistentWorld,
      inconsistentPd, grav, Vec3.add_def, Vec3.muls]
  refine ⟨rfl, hx, ?_⟩
  rw [hx]
  simp [inconsistentWorld, inconsistentPd]

/-- C1, amended: a particle whose inverse mass is 0 and whose stored mass is 0 has the
same position after `n` calls of `step` as before the first, for every model state,
method, solver behaviour and `n`. -/
theorem fixed_particle_never_moves (env : Env) (w : World) (n : Nat) (i : Nat)
    (hw : w.model.pd.invMass i = 0) (hm : w.model.pd.mass i = 0) :
    (stepN env n w).model.pd.x i = w.model.pd.x i :=
  stepN_x_fixed env n w i hm hw

theorem fixed_particle_never_moves_witness :
    demoWorld.model.pd.invMass 1 = 0 ∧ demoWorld.model.pd.mass 1 = 0 ∧
      (stepN demoEnv 3 demoWorld).model.pd.x 1 = demoWorld.model.pd.x 1 :=
  ⟨by simp [demoWorld, demoModel, demoPd], by simp [demoWorld, demoModel, demoPd],
    fixed_particle_never_moves demoEnv demoWorld 3 1 (by simp [demoWorld, demoModel, demoPd])
      (by simp [demoWorld, demoModel, demoPd])⟩

/-- C2, as stated, fails in float arithmetic: the code multiplies the rounded
reciprocal `1.0f / h` into the difference, which is not the quotient. With `h = 7`,
position (21, 0, 0) and last position (0, 0, 0) at the end of the step, float32 gives
the velocity 12582913 / 4194304 = 3.0000002384..., while `(21 - 0) / 7 = 3`, also when
the quotient is rounded. -/
theorem reciprocal_product_is_not_quotient :
    reciprocalWorld.tm.h = 7 ∧ 0 < reciprocalWorld.model.pd.size ∧
      roundF32 (roundF32 (21 - 0) / 7) = 3 ∧
      (stepR f32Arith demoEnv reciprocalWorld).model.pd.x 0 = ⟨21, 0, 0⟩ ∧
      (stepR f32Arith demoEnv reciprocalWorld).model.pd.lastX 0 = ⟨0, 0, 0⟩ ∧
      (stepR f32Arith demoEnv reciprocalWorld).model.pd.v 0 = ⟨12582913 / 4194304, 0, 0⟩ ∧
      ((stepR f32Arith demoEnv reciprocalWorld).model.pd.x 0 -
          (stepR f32Arith demoEnv reciprocalWorld).model.pd.lastX 0).divs
            reciprocalWorld.tm.h = ⟨3, 0, 0⟩ ∧
      (stepR f32Arith demoEnv reciprocalWorld).model.pd.v 0 ≠
        ((stepR f32Arith demoEnv reciprocalWorld).model.pd.x 0 -
          (stepR f32Arith demoEnv reciprocalWorld).model.pd.lastX 0).divs
            reciprocalWorld.tm.h := by
  have hidle : projectedR f32Arith demoEnv reciprocalWorld =
      integratedR f32Arith reciprocalWorld :=
    constraintProjectionR_no_constraints _ _ _ _ rfl rfl
  obtain ⟨_, hl, hx, hv⟩ :=
    stepR_of_projection_idle f32Arith demoEnv reciprocalWorld 0 hidle (by decide)
  obtain ⟨hl0, hx0⟩ := integratedR_of_static f32Arith reciprocalWorld 0 rfl
  rw [hl0] at hl hv
  rw [hx0] at hx hv
  have hx1 : (stepR f32Arith demoEnv reciprocalWorld).model.pd.x 0 = ⟨21, 0, 0⟩ := hx
  have hl1 : (stepR f32Arith demoEnv reciprocalWorld).model.pd.lastX 0 = ⟨0, 0, 0⟩ := hl
  have hv1 : (stepR f32Arith demoEnv reciprocalWorld).model.pd.v 0 =
      ⟨12582913 / 4194304, 0, 0⟩ := by
    rw [hv]
    show Vec3.smulR roundF32 (roundF32 (1 / 7)) (Vec3.subR roundF32 ⟨21, 0, 0⟩ ⟨0, 0, 0⟩) = _
    simp only [Vec3.smulR, Vec3.subR, sub_zero, roundF32_zero, roundF32_twentyone,
      roundF32_seventh, mul_zero]
    rw [show (9586981 / 67108864 * 21 : ℚ) = 201326601 / 67108864 by norm_num,
      roundF32_product]
  have hq : ((⟨21, 0, 0⟩ : Vec3) - ⟨0, 0, 0⟩).divs 7 = ⟨3, 0, 0⟩ := by
    simp [Vec3.sub_def, Vec3.divs]
    norm_num
  refine ⟨rfl, by decide, ?_, hx1, hl1, hv1, ?_, ?_⟩
  · rw [sub_zero, roundF32_twentyone, show (21 / 7 : ℚ) = 3 by norm_num, roundF32_three]
  · rw [hx1, hl1]; exact hq
  · rw [hx1, hl1, hv1]
    show (⟨12582913 / 4194304, 0, 0⟩ : Vec3) ≠ ((⟨21, 0, 0⟩ : Vec3) - ⟨0, 0, 0⟩).divs 7
    rw [hq]
    simp
    norm_num

/-- C2, amended: for every model state, every rounding of the float operations and
every step size `h ≠ 0`, after `step` every particle `i` (dynamic or fixed) has velocity
`(1 / h) * (position i - lastPosition i)` as the code evaluates it: the reciprocal of
`h`, the difference and the product, each rounded; position and last position are the
values at the end of the step. -/
theorem velocity_reconstruction (ar : Arith) (env : Env) (w : World) (i : Nat)
    (hi : i < w.model.pd.size) (_hh : w.tm.h ≠ 0) :
    (stepR ar env w).model.pd.v i =
      Vec3.smulR ar.rnd (ar.rnd (1 / w.tm.h))
        (Vec3.subR ar.rnd ((stepR ar env w).model.pd.x i)
          ((stepR ar env w).model.pd.lastX i)) :=
  stepR_pd_v ar env w i hi

theorem velocity_reconstruction_witness :
    0 < reciprocalWorld.model.pd.size ∧ reciprocalWorld.tm.h ≠ 0 ∧
      (stepR f32Arith demoEnv reciprocalWorld).model.pd.v 0 =
        Vec3.smulR f32Arith.rnd (f32Arith.rnd (1 / reciprocalWorld.tm.h))
          (Vec3.subR f32Arith.rnd ((stepR f32Arith demoEnv reciprocalWorld).model.pd.x 0)
            ((stepR f32Arith demoEnv reciprocalWorld).model.pd.lastX 0)) :=
  ⟨by decide, by norm_num [reciprocalWorld],
    velocity_reconstruction f32Arith demoEnv reciprocalWorld 0 (by decide)
      (by norm_num [reciprocalWorld])⟩

/-- C4: `semiImplicitEulerStep model h`: a particle with nonzero mass gets
`lastPosition := position`, `velocity := velocity + h * acceleration` and
`position := position + h * velocity` with the velocity just updated; a particle with
zero mass keeps position, velocity and last position; accelerations, masses and rest
positions are unchanged for all particles. -/
theorem semiImplicitEulerStep_spec (model : TetModel) (h : ℚ) (i : Nat)
    (hi : i < model.pd.size) :
    (model.pd.mass i ≠ 0 →
        (semiImplicitEulerStep model h).pd.lastX i = model.pd.x i ∧
        (semiImplicitEulerStep model h).pd.v i = model.pd.v i + Vec3.smul h (model.pd.a i) ∧
        (semiImplicitEulerStep model h).pd.x i =
          model.pd.x i + Vec3.smul h ((semiImplicitEulerStep model h).pd.v i)) ∧
      (model.pd.mass i = 0 →
        (semiImplicitEulerStep model h).pd.x i = model.pd.x i ∧
        (semiImplicitEulerStep model h).pd.v i = model.pd.v i ∧
        (semiImplicitEulerStep model h).pd.lastX i = model.pd.lastX i) ∧
      (semiImplicitEulerStep model h).pd.a = model.pd.a ∧
      (semiImplicitEulerStep model h).pd.mass = model.pd.mass ∧
      (semiImplicitEulerStep model h).pd.x0 = model.pd.x0 := by
  rw [semiImplicitEulerStep_pd]
  refine ⟨fun hm => ?_, fun hm => ?_, rfl, rfl, rfl⟩
  · simp only [hi, hm, ne_eq, not_false_eq_true, and_self, if_true, Vec3.muls_eq_smul]
  · simp only [hm, ne_eq, not_true_eq_false, and_false, if_false, and_self]

theorem semiImplicitEulerStep_spec_witness :
    0 < demoModel.pd.size ∧ demoModel.pd.mass 0 ≠ 0 ∧
      (semiImplicitEulerStep demoModel (1 / 2)).pd.lastX 0 = demoModel.pd.x 0 ∧
      (semiImplicitEulerStep demoModel (1 / 2)).pd.v 0 =
        demoModel.pd.v 0 + Vec3.smul (1 / 2) (demoModel.pd.a 0) ∧
      (semiImplicitEulerStep demoModel (1 / 2)).pd.x 0 =
        demoModel.pd.x 0 + Vec3.smul (1 / 2) ((semiImplicitEulerStep demoModel (1 / 2)).pd.v 0) :=
  ⟨by decide, by simp [demoModel, demoPd],
    (semiImplicitEulerStep_spec demoModel (1 / 2) 0 (by decide)).1
      (by simp [demoModel, demoPd])⟩

/-- C5: `clearAccelerations model`: a particle with nonzero mass gets the acceleration
(0, -9.81, 0) whatever it was; a particle with zero mass keeps its acceleration;
positions, last positions, velocities and masses are unchanged for all particles. -/
theorem clearAccelerations_spec (model : TetModel) (i : Nat) (hi : i < model.pd.size) :
    (model.pd.mass i ≠ 0 → (clearAccelerations model).pd.a i = ⟨0, -981 / 100, 0⟩) ∧
      (model.pd.mass i = 0 → (clearAccelerations model).pd.a i = model.pd.a i) ∧
      (clearAccelerations model).pd.x = model.pd.x ∧
      (clearAccelerations model).pd.lastX = model.pd.lastX ∧
      (clearAccelerations model).pd.v = model.pd.v ∧
      (clearAccelerations model).pd.mass = model.pd.mass := by
  rw [clearAccelerations_pd]
  refine ⟨fun hm => ?_, fun hm => ?_, rfl, rfl, rfl, rfl⟩
  · simp only [hi, hm, ne_eq, not_false_eq_true, and_self, if_true, grav]
  · simp only [hm, ne_eq, not_true_eq_false, and_false, if_false]

theorem clearAccelerations_spec_witness :
    0 < demoModel.pd.size ∧ demoModel.pd.mass 0 ≠ 0 ∧
      (clearAccelerations demoModel).pd.a 0 = ⟨0, -981 / 100, 0⟩ :=
  ⟨by decide, by simp [demoModel, demoPd],
    (clearAccelerations_spec demoModel 0 (by decide)).1 (by simp [demoModel, demoPd])⟩

/-- C8: `step` advances the clock by exactly the step size and leaves the step size
unchanged; after `n` consecutive calls the time is `t0 + n * h`, whatever the particle
state, the method and the solvers. -/
theorem step_advances_clock (env : Env) (w : World) :
    (step env w).tm.time = w.tm.time + w.tm.h ∧ (step env w).tm.h = w.tm.h ∧
      ∀ n : Nat, (stepN env n w).tm.h = w.tm.h ∧
        (stepN env n w).tm.time = w.tm.time + (n : ℚ) * w.tm.h := by
  refine ⟨rfl, rfl, fun n => ?_⟩
  induction n with
  | zero => simp [stepN]
  | succ n ih =>
    obtain ⟨ih1, ih2⟩ := ih
    refine ⟨ih1, ?_⟩
    show (stepN env n w).tm.time + (stepN env n w).tm.h = _
    rw [ih1, ih2]
    push_cast
    ring

/-- C9: `step` leaves unchanged the rest positions, masses, inverse masses, particle
count, edge list, tetrahedron index list, every constraint record, stiffness, Poisson
ratio, normalization flags and the method selector. -/
theorem step_mutates_only_dynamic_state (env : Env) (w : World) :
    (step env w).model.pd.x0 = w.model.pd.x0 ∧
      (step env w).model.pd.mass = w.model.pd.mass ∧
      (step env w).model.pd.invMass = w.model.pd.invMass ∧
      (step env w).model.pd.size = w.model.pd.size ∧
      (step env w).model.edges = w.model.edges ∧
      (step env w).model.tets = w.model.tets ∧
      (step env w).model.tetConstraints = w.model.tetConstraints ∧
      (step env w).model.stiffness = w.model.stiffness ∧
      (step env w).model.poissonRatio = w.model.poissonRatio ∧
      (step env w).model.normalizeStretch = w.model.normalizeStretch ∧
      (step env w).model.normalizeShear = w.model.normalizeShear ∧
      (step env w).ts.simulationMethod = w.ts.simulationMethod := by
  have h := step_staticPart env w
  simp only [staticPart, Prod.mk.injEq] at h
  obtain ⟨h1, h2, h3, h4, h5, h6, h7, h8, h9, h10, h11⟩ := h
  exact ⟨h4, h2, h3, h1, h5, h6, h7, h8, h9, h10, h11, rfl⟩

/-- C3: `constraintProjection` never moves a particle with inverse mass 0, whatever the
method, the edge and tetrahedron lists and the results (success flags and corrections)
of the solvers; the same holds of a single pass. -/
theorem constraintProjection_never_moves_fixed (env : Env) (ts : TimeStepTetModel)
    (model : TetModel) (i : Nat) (hw : model.pd.invMass i = 0) :
    (constraintProjection env ts model).pd.x i = model.pd.x i ∧
      (iteration env ts (model, [])).1.pd.x i = model.pd.x i :=
  ⟨constraintProjection_x_fixed env ts model i hw, iterate_x_fixed env ts 1 (model, []) i hw⟩

theorem constraintProjection_never_moves_fixed_witness :
    demoModel.pd.invMass 1 = 0 ∧
      ((constraintProjection demoEnv ⟨1⟩ demoModel).pd.x 1 = demoModel.pd.x 1 ∧
        (iteration demoEnv ⟨1⟩ (demoModel, [])).1.pd.x 1 = demoModel.pd.x 1) ∧
      (iteration demoEnv ⟨1⟩ (demoModel, [])).1.pd.x 0 = ⟨-1 / 2, 0, 0⟩ := by
  refine ⟨by simp [demoModel, demoPd],
    constraintProjection_never_moves_fixed demoEnv ⟨1⟩ demoModel 1
      (by simp [demoModel, demoPd]), ?_⟩
  simp [iteration, TetModel.numEdges, TetModel.numTets, demoModel, forLoop, edgeBody, demoEnv,
    demoPd, ParticleData.applyCorr, ParticleData.addPosition, setAt, Vec3.add_def]
  norm_num

/-- C6: soft failure: if every solver invocation during `constraintProjection` reports
failure (whatever corrections it writes), the model after the projection equals the
model before, in particular all positions; the projection still returns, and all edges
and tetrahedra of all five passes have been handed to their solver. -/
theorem failed_solves_change_nothing (env : Env) (ts : TimeStepTetModel) (model : TetModel)
    (hfail : ∀ c ∈ (constraintProjectionLog env ts model).2, c.res env = false) :
    (constraintProjection env ts model).pd.x = model.pd.x ∧
      constraintProjection env ts model = model ∧
      (constraintProjectionLog env ts model).2.map Call.tag =
        (List.replicate 5
          (passTags ts.simulationMethod model.numEdges model.numTets)).flatten := by
  have h := constraintProjectionLog_of_fail env ts model hfail
  refine ⟨?_, h, constraintProjectionLog_tags env ts model⟩
  unfold constraintProjection
  rw [h]

theorem failed_solves_change_nothing_witness :
    (∀ c ∈ (constraintProjectionLog failEnv ⟨1⟩ squashedModel).2, c.res failEnv = false) ∧
      (constraintProjection failEnv ⟨1⟩ squashedModel).pd.x = squashedModel.pd.x ∧
      constraintProjection failEnv ⟨1⟩ squashedModel = squashedModel ∧
      (constraintProjectionLog failEnv ⟨1⟩ squashedModel).2.map Call.tag =
        (List.replicate 5 (passTags 1 squashedModel.numEdges squashedModel.numTets)).flatten :=
  ⟨fun c _ => by cases c <;> rfl,
    failed_solves_change_nothing failEnv ⟨1⟩ squashedModel (fun c _ => by cases c <;> rfl)⟩

/-- C10: when the method selector is not 1 the distance solver is never invoked and
`constraintProjection` yields the same particle data and the same solver calls for any
two models that differ only in their edge list; when the selector is 1 each of the five
passes invokes the distance solver once per edge, in edge index order, and only then
visits the tetrahedra (with the volume solver), in index order. -/
theorem edge_pass_only_under_method_one (env : Env) (ts : TimeStepTetModel) (model : TetModel) :
    (ts.simulationMethod ≠ 1 →
        (∀ c ∈ (constraintProjectionLog env ts model).2, c.isDistance = false) ∧
        ∀ edges : List Edge,
          (constraintProjection env ts { model with edges := edges }).pd =
              (constraintProjection env ts model).pd ∧
            (constraintProjectionLog env ts { model with edges := edges }).2 =
              (constraintProjectionLog env ts model).2) ∧
      (ts.simulationMethod = 1 →
        (constraintProjectionLog env ts model).2.map Call.tag =
          (List.replicate 5
            ((List.range model.numEdges).map Tag.distance ++
              (List.range model.numTets).map Tag.volume)).flatten) := by
  refine ⟨fun hmeth => ⟨constraintProjectionLog_no_distance env ts model hmeth, fun edges => ?_⟩,
    fun hmeth => ?_⟩
  · unfold constraintProjection
    rw [constraintProjectionLog_setEdges env ts hmeth edges model]
    exact ⟨rfl, rfl⟩
  · rw [constraintProjectionLog_tags, hmeth, passTags_one]

theorem edge_pass_only_under_method_one_witness :
    ((∀ c ∈ (constraintProjectionLog demoEnv ⟨2⟩ squashedModel).2, c.isDistance = false) ∧
        ∀ edges : List Edge,
          (constraintProjection demoEnv ⟨2⟩ { squashedModel with edges := edges }).pd =
              (constraintProjection demoEnv ⟨2⟩ squashedModel).pd ∧
            (constraintProjectionLog demoEnv ⟨2⟩ { squashedModel with edges := edges }).2 =
              (constraintProjectionLog demoEnv ⟨2⟩ squashedModel).2) ∧
      (constraintProjectionLog demoEnv ⟨1⟩ squashedModel).2.map Call.tag =
        (List.replicate 5
          ((List.range squashedModel.numEdges).map Tag.distance ++
            (List.range squashedModel.numTets).map Tag.volume)).flatten :=
  ⟨(edge_pass_only_under_method_one demoEnv ⟨2⟩ squashedModel).1 (by decide),
    (edge_pass_only_under_method_one demoEnv ⟨1⟩ squashedModel).2 rfl⟩

/-- C14: a method selector other than 1, 2 and 3 makes the projection a silent no-op:
`constraintProjection` invokes no solver and returns the model as it was (every
position unchanged), and `step` is then gravity, integration, velocity reconstruction
and clock advance. -/
theorem unknown_method_is_noop (env : Env) (w : World)
    (h1 : w.ts.simulationMethod ≠ 1) (h2 : w.ts.simulationMethod ≠ 2)
    (h3 : w.ts.simulationMethod ≠ 3) :
    (∀ model : TetModel,
        (constraintProjectionLog env w.ts model).2 = [] ∧
        constraintProjection env w.ts model = model ∧
        ∀ i, (constraintProjection env w.ts model).pd.x i = model.pd.x i) ∧
      step env w = stepWithoutProjection w := by
  have hlog := constraintProjectionLog_of_no_method env w.ts h1 h2 h3
  have hcp : ∀ model, constraintProjection env w.ts model = model := fun model => by
    unfold constraintProjection
    rw [hlog]
  refine ⟨fun model => ⟨by rw [hlog], hcp model, fun i => by rw [hcp]⟩, ?_⟩
  simp only [step, stepWithoutProjection, hcp]

theorem unknown_method_is_noop_witness :
    ({ demoWorld with ts := ⟨7⟩ } : World).ts.simulationMethod ≠ 1 ∧
      (∀ model : TetModel,
        (constraintProjectionLog demoEnv ⟨7⟩ model).2 = [] ∧
        constraintProjection demoEnv ⟨7⟩ model = model ∧
        ∀ i, (constraintProjection demoEnv ⟨7⟩ model).pd.x i = model.pd.x i) ∧
      step demoEnv { demoWorld with ts := ⟨7⟩ } =
        stepWithoutProjection { demoWorld with ts := ⟨7⟩ } :=
  ⟨by decide,
    unknown_method_is_noop demoEnv { demoWorld with ts := ⟨7⟩ } (by decide) (by decide)
      (by decide)⟩

/-- C19: `reset` is an empty operation: the particle store, the constraint records, the
configuration and the method selector come back as they were; in particular it does not
put the particles back to their rest positions. -/
theorem reset_is_empty :
    (∀ w : World, reset w = w) ∧
      (∀ w : World, (reset w).model.pd.x = w.model.pd.x ∧
        (reset w).model.tetConstraints = w.model.tetConstraints ∧
        (reset w).ts.simulationMethod = w.ts.simulationMethod) ∧
      (reset demoWorld).model.pd.x 0 ≠ (reset demoWorld).model.pd.x0 0 := by
  refine ⟨fun _ => rfl, fun _ => ⟨rfl, rfl, rfl⟩, ?_⟩
  simp [reset, demoWorld, demoModel, demoPd]

/-- C16: under the store invariant that a particle's mass is 0 exactly when its inverse
mass is 0, a fixed particle (mass 0, hence inverse mass 0) has the same position, last
position and acceleration after `n` calls of `step` as before, for every method and
every solver behaviour. -/
theorem fixed_particle_untouched_by_steps (env : Env) (w : World) (n : Nat) (i : Nat)
    (hinv : ∀ j, w.model.pd.mass j = 0 ↔ w.model.pd.invMass j = 0)
    (hm : w.model.pd.mass i = 0) :
    w.model.pd.invMass i = 0 ∧
      (stepN env n w).model.pd.x i = w.model.pd.x i ∧
      (stepN env n w).model.pd.lastX i = w.model.pd.lastX i ∧
      (stepN env n w).model.pd.a i = w.model.pd.a i :=
  ⟨(hinv i).1 hm, stepN_x_fixed env n w i hm ((hinv i).1 hm),
    (stepN_lastX_a_fixed env n w i hm).1, (stepN_lastX_a_fixed env n w i hm).2⟩

theorem fixed_particle_untouched_by_steps_witness :
    (∀ j, demoWorld.model.pd.mass j = 0 ↔ demoWorld.model.pd.invMass j = 0) ∧
      demoWorld.model.pd.mass 1 = 0 ∧
      (demoWorld.model.pd.invMass 1 = 0 ∧
        (stepN demoEnv 4 demoWorld).model.pd.x 1 = demoWorld.model.pd.x 1 ∧
        (stepN demoEnv 4 demoWorld).model.pd.lastX 1 = demoWorld.model.pd.lastX 1 ∧
        (stepN demoEnv 4 demoWorld).model.pd.a 1 = demoWorld.model.pd.a 1) :=
  ⟨fun j => by simp [demoWorld, demoModel, demoPd], by simp [demoWorld, demoModel, demoPd],
    fixed_particle_untouched_by_steps demoEnv demoWorld 4 1
      (fun j => by simp [demoWorld, demoModel, demoPd])
      (by simp [demoWorld, demoModel, demoPd])⟩

/-- C13: `constraintProjection` is exactly five sequential Gauss-Seidel passes: the
`while` loop returns, and its result (model and solver calls) is that of five
applications of the one-pass fold of the spec (edges in index order under method 1,
then tetrahedra in index order); it makes `5 * (numEdges + numTets)` solver calls under
method 1 and `5 * numTets` under methods 2 and 3. -/
theorem constraintProjection_is_five_passes (env : Env) (ts : TimeStepTetModel)
    (model : TetModel) :
    constraintProjectionLog env ts model = fivePasses env ts model ∧
      constraintProjection env ts model = (fivePasses env ts model).1 ∧
      (∀ iter, maxIter ≤ iter → ∀ s, projectionLoop env ts iter s = s) ∧
      (ts.simulationMethod = 1 →
        (constraintProjectionLog env ts model).2.length =
          5 * (model.numEdges + model.numTets)) ∧
      (ts.simulationMethod = 2 ∨ ts.simulationMethod = 3 →
        (constraintProjectionLog env ts model).2.length = 5 * model.numTets) := by
  have h5 := constraintProjectionLog_eq_fivePasses env ts model
  have hlen := constraintProjectionLog_length env ts model
  refine ⟨h5, ?_, ?_, fun h1 => ?_, fun h23 => ?_⟩
  · unfold constraintProjection
    rw [h5]
  · intro iter hiter s
    rw [projectionLoop, if_neg (by omega)]
  · rw [hlen, h1, passTags_one]
    simp
  · rcases h23 with h2 | h3
    · rw [hlen, h2, passTags_two]
      simp
    · rw [hlen, h3, passTags_three]
      simp

/-- C18: `constraintProjection` writes positions only, and only of constrained
particles: velocities, accelerations and last positions of all particles are unchanged,
and so is the position of any particle that is an endpoint of no edge (asked under
method 1 only) and a vertex of no tetrahedron, for every state, method and solver
behaviour. -/
theorem constraintProjection_writes_constrained_positions_only (env : Env)
    (ts : TimeStepTetModel) (model : TetModel) :
    (constraintProjection env ts model).pd.v = model.pd.v ∧
      (constraintProjection env ts model).pd.a = model.pd.a ∧
      (constraintProjection env ts model).pd.lastX = model.pd.lastX ∧
      ∀ j : Nat,
        (ts.simulationMethod = 1 → ∀ e ∈ model.edges, e.v0 ≠ j ∧ e.v1 ≠ j) →
        (∀ i, i < model.numTets → ∀ k, k < 4 → model.tets.getD (4 * i + k) 0 ≠ j) →
        (constraintProjection env ts model).pd.x j = model.pd.x j := by
  have hf := constraintProjection_frame env ts model
  exact ⟨(congrArg (fun m => m.pd.v) hf).trans rfl, (congrArg (fun m => m.pd.a) hf).trans rfl,
    (congrArg (fun m => m.pd.lastX) hf).trans rfl,
    fun j hE hT => constraintProjection_x_unconstrained env ts model j hE hT⟩

theorem constraintProjection_writes_constrained_positions_only_witness :
    ((⟨1⟩ : TimeStepTetModel).simulationMethod = 1 →
        ∀ e ∈ spareModel.edges, e.v0 ≠ 2 ∧ e.v1 ≠ 2) ∧
      (∀ i, i < spareModel.numTets → ∀ k, k < 4 → spareModel.tets.getD (4 * i + k) 0 ≠ 2) ∧
      2 < spareModel.pd.size ∧
      (constraintProjection demoEnv ⟨1⟩ spareModel).pd.x 2 = spareModel.pd.x 2 := by
  have hE : (⟨1⟩ : TimeStepTetModel).simulationMethod = 1 →
      ∀ e ∈ spareModel.edges, e.v0 ≠ 2 ∧ e.v1 ≠ 2 := by
    intro _ e he
    simp [spareModel, demoModel] at he
    subst he
    exact ⟨by decide, by decide⟩
  have hT : ∀ i, i < spareModel.numTets → ∀ k, k < 4 →
      spareModel.tets.getD (4 * i + k) 0 ≠ 2 := by
    intro i hi
    simp [spareModel, demoModel, TetModel.numTets] at hi
  exact ⟨hE, hT, by decide,
    (constraintProjection_writes_constrained_positions_only demoEnv ⟨1⟩ spareModel).2.2.2 2
      hE hT⟩

/-- C11: the method selector picks one solver for all tetrahedra, with no residue of the
other methods. Under method 1 each pass hands every tetrahedron to the volume solver and
the result (particle data and solver calls) is the same whatever `invRestMat_FEM`,
`invRestMat_SBD`, the Poisson ratio and the normalization flags are; under method 2
every tetrahedron goes to the FEM solver and the result does not depend on
`invRestMat_SBD` or the normalization flags; under method 3 every tetrahedron goes to
the strain solver and the result does not depend on the rest volume, `invRestMat_FEM`
or the Poisson ratio. -/
theorem method_selects_one_solver (env : Env) (ts : TimeStepTetModel) (model : TetModel) :
    (ts.simulationMethod = 1 →
        (constraintProjectionLog env ts model).2.map Call.tag =
            (List.replicate 5
              ((List.range model.numEdges).map Tag.distance ++
                (List.range model.numTets).map Tag.volume)).flatten ∧
          ∀ (tcs : List TetConstraint) (nu : ℚ) (ns nh : Bool),
            tcs.map TetConstraint.tetVolume =
                model.tetConstraints.map TetConstraint.tetVolume →
              (constraintProjection env ts
                  { model with
                    tetConstraints := tcs, poissonRatio := nu, normalizeStretch := ns,
                    normalizeShear := nh }).pd = (constraintProjection env ts model).pd ∧
                (constraintProjectionLog env ts
                  { model with
                    tetConstraints := tcs, poissonRatio := nu, normalizeStretch := ns,
                    normalizeShear := nh }).2 = (constraintProjectionLog env ts model).2) ∧
      (ts.simulationMethod = 2 →
        (constraintProjectionLog env ts model).2.map Call.tag =
            (List.replicate 5 ((List.range model.numTets).map Tag.fem)).flatten ∧
          ∀ (tcs : List TetConstraint) (ns nh : Bool),
            tcs.map (fun c => (c.tetVolume, c.invRestMat_FEM)) =
                model.tetConstraints.map (fun c => (c.tetVolume, c.invRestMat_FEM)) →
              (constraintProjection env ts
                  { model with
                    tetConstraints := tcs, normalizeStretch := ns,
                    normalizeShear := nh }).pd = (constraintProjection env ts model).pd ∧
                (constraintProjectionLog env ts
                  { model with
                    tetConstraints := tcs, normalizeStretch := ns,
                    normalizeShear := nh }).2 = (constraintProjectionLog env ts model).2) ∧
      (ts.simulationMethod = 3 →
        (constraintProjectionLog env ts model).2.map Call.tag =
            (List.replicate 5 ((List.range model.numTets).map Tag.strain)).flatten ∧
          ∀ (tcs : List TetConstraint) (nu : ℚ),
            tcs.map TetConstraint.invRestMat_SBD =
                model.tetConstraints.map TetConstraint.invRestMat_SBD →
              (constraintProjection env ts
                  { model with tetConstraints := tcs, poissonRatio := nu }).pd =
                  (constraintProjection env ts model).pd ∧
                (constraintProjectionLog env ts
                  { model with tetConstraints := tcs, poissonRatio := nu }).2 =
                  (constraintProjectionLog env ts model).2) := by
  have htags := constraintProjectionLog_tags env ts model
  refine ⟨fun h1 => ⟨?_, fun tcs nu ns nh htc => ?_⟩, fun h2 => ⟨?_, fun tcs ns nh htc => ?_⟩,
    fun h3 => ⟨?_, fun tcs nu htc => ?_⟩⟩
  · rw [htags, h1, passTags_one]
  · refine constraintProjectionLog_rel env ts _ model ⟨rfl, rfl, rfl, rfl, fun _ i => ?_,
      fun m2 => ?_, fun m3 => ?_⟩
    · exact getD_of_map_eq TetConstraint.tetVolume _ _ htc i
    · rw [h1] at m2; exact absurd m2 (by decide)
    · rw [h1] at m3; exact absurd m3 (by decide)
  · rw [htags, h2, passTags_two]
  · refine constraintProjectionLog_rel env ts _ model ⟨rfl, rfl, rfl, rfl, fun m1 => ?_,
      fun _ => ⟨fun i => ?_, rfl⟩, fun m3 => ?_⟩
    · rw [h2] at m1; exact absurd m1 (by decide)
    · have hp := getD_of_map_eq (fun c => (c.tetVolume, c.invRestMat_FEM)) _ _ htc i
      exact ⟨congrArg Prod.fst hp, congrArg Prod.snd hp⟩
    · rw [h2] at m3; exact absurd m3 (by decide)
  · rw [htags, h3, passTags_three]
  · refine constraintProjectionLog_rel env ts _ model ⟨rfl, rfl, rfl, rfl, fun m1 => ?_,
      fun m2 => ?_, fun _ => ⟨fun i => ?_, rfl, rfl⟩⟩
    · rw [h3] at m1; exact absurd m1 (by decide)
    · rw [h3] at m2; exact absurd m2 (by decide)
    · exact getD_of_map_eq TetConstraint.invRestMat_SBD _ _ htc i

theorem method_selects_one_solver_witness :
    ((constraintProjection demoEnv ⟨1⟩
          { squashedModel with
            tetConstraints := [⟨1 / 6, otherMat, otherMat⟩], poissonRatio := 1 / 4,
            normalizeStretch := true, normalizeShear := true }).pd =
        (constraintProjection demoEnv ⟨1⟩ squashedModel).pd) ∧
      ((constraintProjection demoEnv ⟨2⟩
          { squashedModel with
            tetConstraints := [⟨1 / 6, default, otherMat⟩], normalizeStretch := true,
            normalizeShear := true }).pd =
        (constraintProjection demoEnv ⟨2⟩ squashedModel).pd) ∧
      ((constraintProjection demoEnv ⟨3⟩
          { squashedModel with
            tetConstraints := [⟨5, otherMat, default⟩], poissonRatio := 1 / 4 }).pd =
        (constraintProjection demoEnv ⟨3⟩ squashedModel).pd) :=
  ⟨(((method_selects_one_solver demoEnv ⟨1⟩ squashedModel).1 rfl).2
      [⟨1 / 6, otherMat, otherMat⟩] (1 / 4) true true rfl).1,
    (((method_selects_one_solver demoEnv ⟨2⟩ squashedModel).2.1 rfl).2
      [⟨1 / 6, default, otherMat⟩] true true rfl).1,
    (((method_selects_one_solver demoEnv ⟨3⟩ squashedModel).2.2 rfl).2
      [⟨5, otherMat, default⟩] (1 / 4) rfl).1⟩

end PBD
